import Mathlib

/-!
Verification of the graph-subscriptions ticket core
(`src/graph-subscriptions-rs/src/lib.rs`).

Shallow embedding conventions:
* Rust `String` is modelled as `List Char` (both are sequences of Unicode
  scalar values); byte buffers (`Vec<u8>`, `[u8; N]`) are `List Nat` with
  each element intended `< 256`.
* `ethers::abi::Address` (`H160`, a 20-byte array) is `List Nat` of length 20.
* The external cryptographic primitives (keccak256, ECDSA sign and recover)
  are not code of this repository; they are modelled abstractly as the
  spec's "signing capability" interface (spec section 4.3 and section 6).
* Fallible Rust code returning `anyhow::Result` is modelled with `Except`
  over explicit error inductives mirroring the error taxonomy.
-/

set_option maxHeartbeats 1000000
set_option maxRecDepth 16384

/-- Decidable equality for `Except`, used so concrete runs of the embedded
functions can be checked by `decide`. -/
instance {ε α : Type _} [DecidableEq ε] [DecidableEq α] : DecidableEq (Except ε α) := fun x y =>
  match x, y with
  | .error a, .error b =>
    if h : a = b then .isTrue (by rw [h]) else .isFalse (by intro hc; cases hc; exact h rfl)
  | .error _, .ok _ => .isFalse (by intro hc; cases hc)
  | .ok _, .error _ => .isFalse (by intro hc; cases hc)
  | .ok a, .ok b =>
    if h : a = b then .isTrue (by rw [h]) else .isFalse (by intro hc; cases hc; exact h rfl)

/-- Rust `String` model: a sequence of Unicode scalar values. -/
abbrev Str := List Char

/-- Ethereum-style account address: the 20 raw bytes of `H160`. -/
abbrev Address := List Nat

/-- A 20-byte address whose entries are genuine bytes. -/
def wfAddr (a : Address) : Prop := a.length = 20 ∧ ∀ x ∈ a, x < 256

instance (a : Address) : Decidable (wfAddr a) := by unfold wfAddr; infer_instance

/-- Lowercase hex digit for `n % 16`, as produced by Rust's lower-hex
formatting used by the `Debug` instance of `H160`. -/
def hexCh (n : Nat) : Char :=
  if n % 16 < 10 then Char.ofNat (48 + n % 16) else Char.ofNat (87 + n % 16)

/-- Two lowercase hex digits of a byte (Rust                `{:02x}`). -/
def byteHex (b : Nat) : Str := [hexCh (b / 16), hexCh (b % 16)]

/-- Rendering of an `Address` by the `Debug` instance of `H160`:
`0x` followed by the 40 lowercase hex digits of the 20 bytes. -/
def addressHex (a : Address) : Str := '0' :: 'x' :: a.flatMap byteHex

/-- Decimal digit character. -/
def digCh (n : Nat) : Char := Char.ofNat (48 + n % 10)

/-- Fuel-driven decimal rendering loop (the fuel is an upper bound on the
number of digits; `decRep` always supplies enough). -/
def decRepAux : Nat → Nat → Str
  | 0, _ => []
  | fuel + 1, n => if n < 10 then [digCh n] else decRepAux fuel (n / 10) ++ [digCh (n % 10)]

/-- Decimal rendering of an unsigned integer, as Rust's `Display` for `u64`
produces it (no sign, no leading zeros). -/
def decRep (n : Nat) : Str := decRepAux (n + 1) n

/-- The ticket payload (struct `TicketPayload` in the source): the signed
credential body.  Optional fields model the `Option<...>` fields, which are
skipped entirely from the serialized form when absent
(`#[skip_serializing_none]`). -/
structure TicketPayload where
  chain_id : Nat
  contract : Address
  signer : Address
  user : Option Address
  name : Option Str
  allowed_subgraphs : Option Str
  allowed_deployments : Option Str
  allowed_domains : Option Str
  deriving DecidableEq

/-- The accessor `TicketPayload::user`: defaults to `signer` when absent. -/
def TicketPayload.user_or_signer (p : TicketPayload) : Address := p.user.getD p.signer

/-- One canonical-message line: `"<field_name>: <value>"` followed by a
newline, as each `writeln!` in `verification_message` emits it. -/
def lineFor (nm : String) (v : Str) : Str := nm.toList ++ ": ".toList ++ v ++ ['\n']

/-- The canonical verification message (`TicketPayload::verification_message`),
transcribed line by line from the source: present fields emit one line each,
in the source's fixed order; `chain_id` renders decimal, addresses render via
their `Debug` (0x lowercase hex) form. -/
def TicketPayload.verification_message (p : TicketPayload) : Str :=
  (match p.allowed_deployments with | some v => lineFor "allowed_deployments" v | none => [])
  ++ (match p.allowed_domains with | some v => lineFor "allowed_domains" v | none => [])
  ++ (match p.allowed_subgraphs with | some v => lineFor "allowed_subgraphs" v | none => [])
  ++ lineFor "chain_id" (decRep p.chain_id)
  ++ lineFor "contract" (addressHex p.contract)
  ++ (match p.name with | some v => lineFor "name" v | none => [])
  ++ lineFor "signer" (addressHex p.signer)
  ++ (match p.user with | some u => lineFor "user" (addressHex u) | none => [])

/-- The spec's description of the canonical message (spec section 4.2): the
fields in alphabetical order, each paired with its rendered value when
present. -/
def specFieldValues (p : TicketPayload) : List (String × Option Str) :=
  [("allowed_deployments", p.allowed_deployments),
   ("allowed_domains", p.allowed_domains),
   ("allowed_subgraphs", p.allowed_subgraphs),
   ("chain_id", some (decRep p.chain_id)),
   ("contract", some (addressHex p.contract)),
   ("name", p.name),
   ("signer", some (addressHex p.signer)),
   ("user", p.user.map addressHex)]

/-- The canonical message as the spec words it: one `"<field_name>: <value>"`
line plus newline per present field, absent fields contributing nothing. -/
def spec_message (p : TicketPayload) : Str :=
  (specFieldValues p).flatMap (fun kv => match kv.2 with | some v => lineFor kv.1 v | none => [])

/-- Claim C3: the canonical verification message consists of exactly one
`"<field_name>: <value>"` line (newline-terminated) per present field, in the
fixed alphabetical order allowed_deployments, allowed_domains,
allowed_subgraphs, chain_id, contract, name, signer, user; absent optional
fields contribute no line; chain_id renders as decimal and the addresses as
0x-prefixed lowercase hex. -/
theorem claim_C3_message_shape (p : TicketPayload) :
    p.verification_message = spec_message p := by
  cases p with
  | mk c ct sg u nm asg adp adm =>
    cases u <;> cases nm <;> cases asg <;> cases adp <;> cases adm <;>
      simp [TicketPayload.verification_message, spec_message, specFieldValues]

/-- UTF-8 encoding of one Unicode scalar value, as Rust's
`char::encode_utf8` (and any standards-conforming encoder) produces it. -/
def utf8Char (c : Char) : List Nat :=
  if c.toNat < 0x80 then [c.toNat]
  else if c.toNat < 0x800 then [0xC0 + c.toNat / 64, 0x80 + c.toNat % 64]
  else if c.toNat < 0x10000 then
    [0xE0 + c.toNat / 4096, 0x80 + c.toNat / 64 % 64, 0x80 + c.toNat % 64]
  else
    [0xF0 + c.toNat / 262144, 0x80 + c.toNat / 4096 % 64, 0x80 + c.toNat / 64 % 64,
      0x80 + c.toNat % 64]

/-- UTF-8 encoding of a string (the bytes a Rust `String` holds). -/
def utf8 (s : Str) : List Nat := s.flatMap utf8Char

/-- Value of a two-byte UTF-8 sequence, with the strict validity checks
(continuation-byte shape and no overlong form). -/
def dec2 (b1 b2 : Nat) : Option Nat :=
  if 0xC2 ≤ b1 ∧ b1 < 0xE0 ∧ 0x80 ≤ b2 ∧ b2 < 0xC0 then
    some ((b1 - 0xC0) * 64 + (b2 - 0x80))
  else none

/-- Value of a three-byte UTF-8 sequence, rejecting overlong forms and
surrogate code points. -/
def dec3 (b1 b2 b3 : Nat) : Option Nat :=
  if 0x80 ≤ b2 ∧ b2 < 0xC0 ∧ 0x80 ≤ b3 ∧ b3 < 0xC0 ∧
      0x800 ≤ (b1 - 0xE0) * 4096 + (b2 - 0x80) * 64 + (b3 - 0x80) ∧
      ((b1 - 0xE0) * 4096 + (b2 - 0x80) * 64 + (b3 - 0x80) < 0xD800 ∨
        0xE000 ≤ (b1 - 0xE0) * 4096 + (b2 - 0x80) * 64 + (b3 - 0x80)) then
    some ((b1 - 0xE0) * 4096 + (b2 - 0x80) * 64 + (b3 - 0x80))
  else none

/-- Value of a four-byte UTF-8 sequence, rejecting overlong forms and values
above U+10FFFF. -/
def dec4 (b1 b2 b3 b4 : Nat) : Option Nat :=
  if 0x80 ≤ b2 ∧ b2 < 0xC0 ∧ 0x80 ≤ b3 ∧ b3 < 0xC0 ∧ 0x80 ≤ b4 ∧ b4 < 0xC0 ∧
      0x10000 ≤ (b1 - 0xF0) * 262144 + (b2 - 0x80) * 4096 + (b3 - 0x80) * 64 + (b4 - 0x80) ∧
      (b1 - 0xF0) * 262144 + (b2 - 0x80) * 4096 + (b3 - 0x80) * 64 + (b4 - 0x80) < 0x110000 then
    some ((b1 - 0xF0) * 262144 + (b2 - 0x80) * 4096 + (b3 - 0x80) * 64 + (b4 - 0x80))
  else none

/-- Decode one scalar value off the front of a byte list (strict UTF-8, as
Rust's `str::from_utf8` validation). -/
def utf8DecodeStep (l : List Nat) : Option (Nat × List Nat) :=
  match l with
  | [] => none
  | b1 :: bs =>
    if b1 < 0x80 then some (b1, bs)
    else if b1 < 0xE0 then
      match bs with
      | b2 :: r => (dec2 b1 b2).map (fun n => (n, r))
      | [] => none
    else if b1 < 0xF0 then
      match bs with
      | b2 :: b3 :: r => (dec3 b1 b2 b3).map (fun n => (n, r))
      | _ => none
    else
      match bs with
      | b2 :: b3 :: b4 :: r => (dec4 b1 b2 b3 b4).map (fun n => (n, r))
      | _ => none

/-- Fuelled strict UTF-8 decoding loop; each step consumes at least one byte,
so fuel equal to the length of the input always suffices. -/
def utf8DecodeAux : Nat → List Nat → Option Str
  | _, [] => some []
  | 0, _ :: _ => none
  | fuel + 1, b :: bs =>
    (utf8DecodeStep (b :: bs)).bind
      (fun nr => (utf8DecodeAux fuel nr.2).map (fun ss => Char.ofNat nr.1 :: ss))

/-- Strict UTF-8 decoding of a byte list (Rust's `str::from_utf8`). -/
def utf8Decode (l : List Nat) : Option Str := utf8DecodeAux l.length l

theorem char_toNat_valid (c : Char) :
    c.toNat < 0xD800 ∨ (0xDFFF < c.toNat ∧ c.toNat < 0x110000) := c.valid

theorem utf8Char_length_pos (c : Char) : 0 < (utf8Char c).length := by
  unfold utf8Char
  split
  · simp
  · split
    · simp
    · split <;> simp

theorem utf8DecodeStep_utf8Char (c : Char) (r : List Nat) :
    utf8DecodeStep (utf8Char c ++ r) = some (c.toNat, r) := by
  have hv := char_toNat_valid c
  by_cases h1 : c.toNat < 0x80
  · simp only [utf8Char, if_pos h1, List.cons_append, List.nil_append, utf8DecodeStep, if_pos h1]
  · by_cases h2 : c.toNat < 0x800
    · have e1 : ¬(0xC0 + c.toNat / 64 < 0x80) := by omega
      have e2 : 0xC0 + c.toNat / 64 < 0xE0 := by omega
      simp only [utf8Char, if_neg h1, if_pos h2, List.cons_append, List.nil_append,
        utf8DecodeStep, if_neg e1, if_pos e2, dec2]
      rw [if_pos (by refine ⟨by omega, by omega, by omega, by omega⟩)]
      simp only [Option.map_some']
      congr 1
      congr 1
      omega
    · by_cases h3 : c.toNat < 0x10000
      · have e1 : ¬(0xE0 + c.toNat / 4096 < 0x80) := by omega
        have e2 : ¬(0xE0 + c.toNat / 4096 < 0xE0) := by omega
        have e3 : 0xE0 + c.toNat / 4096 < 0xF0 := by omega
        simp only [utf8Char, if_neg h1, if_neg h2, if_pos h3, List.cons_append, List.nil_append,
          utf8DecodeStep, if_neg e1, if_neg e2, if_pos e3, dec3]
        have hval : (0xE0 + c.toNat / 4096 - 0xE0) * 4096 + (0x80 + c.toNat / 64 % 64 - 0x80) * 64 +
            (0x80 + c.toNat % 64 - 0x80) = c.toNat := by omega
        rw [if_pos (by refine ⟨by omega, by omega, by omega, by omega, by rw [hval]; omega, ?_⟩
                       rw [hval]; omega)]
        simp only [Option.map_some']
        rw [hval]
      · have e1 : ¬(0xF0 + c.toNat / 262144 < 0x80) := by omega
        have e2 : ¬(0xF0 + c.toNat / 262144 < 0xE0) := by omega
        have e3 : ¬(0xF0 + c.toNat / 262144 < 0xF0) := by omega
        simp only [utf8Char, if_neg h1, if_neg h2, if_neg h3, List.cons_append, List.nil_append,
          utf8DecodeStep, if_neg e1, if_neg e2, if_neg e3, dec4]
        have hval : (0xF0 + c.toNat / 262144 - 0xF0) * 262144 +
            (0x80 + c.toNat / 4096 % 64 - 0x80) * 4096 +
            (0x80 + c.toNat / 64 % 64 - 0x80) * 64 + (0x80 + c.toNat % 64 - 0x80) = c.toNat := by
          omega
        rw [if_pos (by refine ⟨by omega, by omega, by omega, by omega, by omega, by omega,
                         by rw [hval]; omega, by rw [hval]; omega⟩)]
        simp only [Option.map_some']
        rw [hval]

theorem utf8DecodeAux_cons (fuel : Nat) (l : List Nat) (hne : l ≠ []) :
    utf8DecodeAux (fuel + 1) l =
      (utf8DecodeStep l).bind
        (fun nr => (utf8DecodeAux fuel nr.2).map (fun ss => Char.ofNat nr.1 :: ss)) := by
  cases l with
  | nil => exact absurd rfl hne
  | cons b bs => rfl

theorem utf8DecodeAux_utf8 (s : Str) :
    ∀ fuel, (utf8 s).length ≤ fuel → utf8DecodeAux fuel (utf8 s) = some s := by
  induction s with
  | nil => intro fuel _; cases fuel <;> rfl
  | cons c cs ih =>
    intro fuel hfuel
    have hlen : 0 < (utf8Char c).length := utf8Char_length_pos c
    have hsplit : utf8 (c :: cs) = utf8Char c ++ utf8 cs := rfl
    have hne : utf8 (c :: cs) ≠ [] := by
      rw [hsplit]
      intro h
      have h2 := congrArg List.length h
      rw [List.length_append, List.length_nil] at h2
      omega
    have hlen2 : (utf8 (c :: cs)).length = (utf8Char c).length + (utf8 cs).length := by
      rw [hsplit, List.length_append]
    rw [hlen2] at hfuel
    cases fuel with
    | zero => exact absurd hfuel (by omega)
    | succ f =>
      rw [utf8DecodeAux_cons f _ hne, hsplit, utf8DecodeStep_utf8Char]
      have hrest : (utf8 cs).length ≤ f := by omega
      simp [ih f hrest, Char.ofNat_toNat]

/-- Decoding inverts encoding on every string. -/
theorem utf8Decode_utf8 (s : Str) : utf8Decode (utf8 s) = some s :=
  utf8DecodeAux_utf8 s (utf8 s).length (le_refl _)

/-- The byte buffer `verification_message` assembles in its `io::Cursor`
before the final `String::from_utf8_unchecked`: each `writeln!` appends the
UTF-8 bytes of one line. -/
def TicketPayload.verification_message_bytes (p : TicketPayload) : List Nat :=
  (match p.allowed_deployments with | some v => utf8 (lineFor "allowed_deployments" v) | none => [])
  ++ (match p.allowed_domains with | some v => utf8 (lineFor "allowed_domains" v) | none => [])
  ++ (match p.allowed_subgraphs with | some v => utf8 (lineFor "allowed_subgraphs" v) | none => [])
  ++ utf8 (lineFor "chain_id" (decRep p.chain_id))
  ++ utf8 (lineFor "contract" (addressHex p.contract))
  ++ (match p.name with | some v => utf8 (lineFor "name" v) | none => [])
  ++ utf8 (lineFor "signer" (addressHex p.signer))
  ++ (match p.user with | some u => utf8 (lineFor "user" (addressHex u)) | none => [])

/-- Claim C9: for every payload (arbitrary Unicode in the string fields
included) the byte buffer assembled by `verification_message` is exactly the
UTF-8 encoding of the message string and decodes back to it, so the
`String::from_utf8_unchecked` at the end of the function is sound and the
function totally produces a well-formed string. -/
theorem claim_C9_message_bytes_valid_utf8 (p : TicketPayload) :
    p.verification_message_bytes = utf8 p.verification_message ∧
      utf8Decode p.verification_message_bytes = some p.verification_message := by
  have h : p.verification_message_bytes = utf8 p.verification_message := by
    cases p with
    | mk c ct sg u nm asg adp adm =>
      cases u <;> cases nm <;> cases asg <;> cases adp <;> cases adm <;>
        simp [TicketPayload.verification_message, TicketPayload.verification_message_bytes, utf8]
  exact ⟨h, by rw [h, utf8Decode_utf8]⟩

theorem char_toNat_ofNat_small (n : Nat) (h : n < 55296) : (Char.ofNat n).toNat = n := by
  unfold Char.ofNat
  rw [dif_pos (Or.inl h)]
  simp [Char.ofNatAux, Char.toNat, UInt32.toNat]

theorem digCh_toNat (n : Nat) : (digCh n).toNat = 48 + n % 10 :=
  char_toNat_ofNat_small _ (by omega)

theorem hexCh_toNat (n : Nat) :
    (hexCh n).toNat = if n % 16 < 10 then 48 + n % 16 else 87 + n % 16 := by
  unfold hexCh
  split <;> rw [char_toNat_ofNat_small _ (by omega)]

theorem nl_toNat : ('\n').toNat = 10 := rfl

theorem digCh_ne_nl (n : Nat) : digCh n ≠ '\n' := by
  intro h
  have h2 := congrArg Char.toNat h
  rw [digCh_toNat, nl_toNat] at h2
  omega

theorem hexCh_ne_nl (n : Nat) : hexCh n ≠ '\n' := by
  intro h
  have h2 := congrArg Char.toNat h
  rw [hexCh_toNat, nl_toNat] at h2
  split at h2 <;> omega

/-- Decimal value of a digit string (left inverse of `decRep`). -/
def decVal (s : Str) : Nat := s.foldl (fun acc c => acc * 10 + (c.toNat - 48)) 0

theorem decVal_append_digit (s : Str) (c : Char) :
    decVal (s ++ [c]) = decVal s * 10 + (c.toNat - 48) := by
  unfold decVal
  rw [List.foldl_append]
  rfl

theorem decVal_decRepAux : ∀ fuel n, n ≤ fuel → decVal (decRepAux fuel n) = n := by
  intro fuel
  induction fuel with
  | zero => intro n h; interval_cases n; rfl
  | succ f ih =>
    intro n h
    unfold decRepAux
    by_cases h10 : n < 10
    · rw [if_pos h10]
      show 0 * 10 + ((digCh n).toNat - 48) = n
      rw [digCh_toNat]
      omega
    · rw [if_neg h10, decVal_append_digit, ih (n / 10) (by omega), digCh_toNat]
      omega

theorem decRep_inj {m n : Nat} (h : decRep m = decRep n) : m = n := by
  have hm := decVal_decRepAux (m + 1) m (by omega)
  have hn := decVal_decRepAux (n + 1) n (by omega)
  unfold decRep at h
  rw [← hm, ← hn, h]

theorem decRepAux_ne_nl : ∀ fuel n c, c ∈ decRepAux fuel n → c ≠ '\n' := by
  intro fuel
  induction fuel with
  | zero => intro n c h; simp [decRepAux] at h
  | succ f ih =>
    intro n c h
    unfold decRepAux at h
    split at h
    · rw [List.mem_singleton] at h
      rw [h]; exact digCh_ne_nl n
    · rw [List.mem_append, List.mem_singleton] at h
      rcases h with h | h
      · exact ih _ _ h
      · rw [h]; exact digCh_ne_nl _

theorem decRep_ne_nl (n : Nat) : ∀ c ∈ decRep n, c ≠ '\n' := fun c hc =>
  decRepAux_ne_nl _ _ c hc

theorem addressHex_ne_nl (a : Address) : ∀ c ∈ addressHex a, c ≠ '\n' := by
  intro c hc
  unfold addressHex at hc
  rcases hc with _ | ⟨_, hc⟩
  · decide
  · rcases hc with _ | ⟨_, hc⟩
    · decide
    · have hc' : c ∈ a.flatMap byteHex := hc
      rw [List.mem_flatMap] at hc'
      obtain ⟨b, _, hb⟩ := hc'
      unfold byteHex at hb
      rcases hb with _ | ⟨_, hb⟩
      · exact hexCh_ne_nl _
      · rcases hb with _ | ⟨_, hb⟩
        · exact hexCh_ne_nl _
        · cases hb

theorem hexCh_inj {d e : Nat} (hd : d < 16) (he : e < 16) (h : hexCh d = hexCh e) : d = e := by
  have h2 := congrArg Char.toNat h
  rw [hexCh_toNat, hexCh_toNat] at h2
  have hd16 : d % 16 = d := Nat.mod_eq_of_lt hd
  have he16 : e % 16 = e := Nat.mod_eq_of_lt he
  rw [hd16, he16] at h2
  split at h2 <;> split at h2 <;> omega

theorem flatMap_byteHex_inj :
    ∀ (a b : List Nat), (∀ x ∈ a, x < 256) → (∀ x ∈ b, x < 256) →
      a.flatMap byteHex = b.flatMap byteHex → a = b := by
  intro a
  induction a with
  | nil =>
    intro b _ _ h
    cases b with
    | nil => rfl
    | cons y ys => simp [byteHex] at h
  | cons x xs ih =>
    intro b ha hb h
    cases b with
    | nil => simp [byteHex] at h
    | cons y ys =>
      simp only [List.flatMap_cons, byteHex, List.cons_append, List.nil_append,
        List.cons.injEq] at h
      obtain ⟨h1, h2, h3⟩ := h
      have hx : x < 256 := ha x (by simp)
      have hy : y < 256 := hb y (by simp)
      have e1 : x / 16 = y / 16 := hexCh_inj (by omega) (by omega) h1
      have e2 : x % 16 = y % 16 := hexCh_inj (by omega) (by omega) h2
      have : x = y := by omega
      rw [this, ih ys (fun z hz => ha z (by simp [hz])) (fun z hz => hb z (by simp [hz])) h3]

theorem addressHex_inj {a b : Address} (ha : ∀ x ∈ a, x < 256) (hb : ∀ x ∈ b, x < 256)
    (h : addressHex a = addressHex b) : a = b := by
  unfold addressHex at h
  simp only [List.cons.injEq, true_and] at h
  exact flatMap_byteHex_inj a b ha hb h

/-- Hex-digit test, as the spec's "valid hex-address literal" wording: a
decimal digit or a hex letter of either case. -/
def isHexDigitCh (c : Char) : Prop :=
  (48 ≤ c.toNat ∧ c.toNat ≤ 57) ∨ (97 ≤ c.toNat ∧ c.toNat ≤ 102) ∨
    (65 ≤ c.toNat ∧ c.toNat ≤ 70)

instance (c : Char) : Decidable (isHexDigitCh c) := by unfold isHexDigitCh; infer_instance

/-- Numeric value of a hex digit (either case), `none` on anything else. -/
def hexVal (c : Char) : Option Nat :=
  if 48 ≤ c.toNat ∧ c.toNat ≤ 57 then some (c.toNat - 48)
  else if 97 ≤ c.toNat ∧ c.toNat ≤ 102 then some (c.toNat - 87)
  else if 65 ≤ c.toNat ∧ c.toNat ≤ 70 then some (c.toNat - 55)
  else none

/-- Decode a hex string two digits at a time into bytes (the behaviour of
`hex::decode`: fails on odd length or any non-hex character). -/
def hexPairs : Str → Option (List Nat)
  | [] => some []
  | [_] => none
  | c1 :: c2 :: r =>
    match hexVal c1, hexVal c2, hexPairs r with
    | some h, some l, some bs => some ((h * 16 + l) :: bs)
    | _, _, _ => none

/-- Strip one leading `0x`, as `H160`'s string parsing does. -/
def strip0x (s : Str) : Str := match s with | '0' :: 'x' :: r => r | _ => s

/-- Modelled from the spec: the address-string parsing used by the
human-readable branch of `AddressBytes::deserialize` (`Address::from_str` of
the external `H160` type, absent from src/): an optional `0x` followed by
exactly 40 hex digits naming 20 bytes; anything else is an invalid-address
error. -/
def addressFromStr (s : Str) : Option Address :=
  (hexPairs (strip0x s)).bind (fun bs => if bs.length = 20 then some bs else none)

/-- What a serde serializer receives from `AddressBytes::serialize`: a string
in the human-readable branch, raw bytes in the binary branch. -/
inductive SerOut where
  | str (s : Str)
  | bytes (b : List Nat)
  deriving DecidableEq

/-- The serializer half of the address codec (`AddressBytes::serialize`):
branches on the serializer's human-readable capability. -/
def AddressBytes.serialize (human_readable : Bool) (a : Address) : SerOut :=
  if human_readable then .str (addressHex a) else .bytes a

/-- The deserializer half in a human-readable context: parse the address
string format. -/
def AddressBytes.deserializeHuman (s : Str) : Option Address := addressFromStr s

/-- The deserializer half in a binary context: read exactly 20 raw bytes
(`serde_with::Bytes` into `[u8; 20]` fails on any other length). -/
def AddressBytes.deserializeBinary (b : List Nat) : Option Address :=
  if b.length = 20 then some b else none

/-- The spec's "valid hex-address literal": optionally `0x`-prefixed, exactly
40 hex digits. -/
def hexAddrLiteral (s : Str) : Prop :=
  (strip0x s).length = 40 ∧ ∀ c ∈ strip0x s, isHexDigitCh c

theorem hexVal_isSome_iff (c : Char) : (hexVal c).isSome ↔ isHexDigitCh c := by
  unfold hexVal isHexDigitCh
  by_cases h1 : 48 ≤ c.toNat ∧ c.toNat ≤ 57
  · rw [if_pos h1]
    exact iff_of_true (by simp) (Or.inl h1)
  · rw [if_neg h1]
    by_cases h2 : 97 ≤ c.toNat ∧ c.toNat ≤ 102
    · rw [if_pos h2]
      exact iff_of_true (by simp) (Or.inr (Or.inl h2))
    · rw [if_neg h2]
      by_cases h3 : 65 ≤ c.toNat ∧ c.toNat ≤ 70
      · rw [if_pos h3]
        exact iff_of_true (by simp) (Or.inr (Or.inr h3))
      · rw [if_neg h3]
        refine iff_of_false (by simp) ?_
        intro h
        rcases h with h | h | h
        exacts [h1 h, h2 h, h3 h]

theorem hexVal_hexCh {d : Nat} (hd : d < 16) : hexVal (hexCh d) = some d := by
  unfold hexVal
  rw [hexCh_toNat]
  have hd16 : d % 16 = d := Nat.mod_eq_of_lt hd
  rw [hd16]
  by_cases h : d < 10
  · rw [if_pos h, if_pos (by omega)]
    congr 1
    omega
  · rw [if_neg h, if_neg (by omega), if_pos (by omega)]
    congr 1
    omega

theorem hexPairs_sound : ∀ (t : Str) (bs : List Nat), hexPairs t = some bs →
    t.length = 2 * bs.length ∧ ∀ c ∈ t, (hexVal c).isSome
  | [], bs, h => by
    simp only [hexPairs, Option.some.injEq] at h
    subst h
    exact ⟨rfl, by intro c hc; cases hc⟩
  | [c], bs, h => by simp [hexPairs] at h
  | c1 :: c2 :: r, bs, h => by
    simp only [hexPairs] at h
    cases hv1 : hexVal c1 with
    | none => rw [hv1] at h; simp at h
    | some h1 =>
      cases hv2 : hexVal c2 with
      | none => rw [hv1, hv2] at h; simp at h
      | some h2 =>
        cases hr : hexPairs r with
        | none => rw [hv1, hv2, hr] at h; simp at h
        | some rs =>
          rw [hv1, hv2, hr] at h
          simp only [Option.some.injEq] at h
          subst h
          obtain ⟨hl, hall⟩ := hexPairs_sound r rs hr
          refine ⟨by simp [hl]; omega, ?_⟩
          intro c hc
          rcases hc with _ | ⟨_, hc⟩
          · rw [hv1]; rfl
          · rcases hc with _ | ⟨_, hc⟩
            · rw [hv2]; rfl
            · exact hall c hc

theorem hexPairs_complete : ∀ (t : Str), (∀ c ∈ t, (hexVal c).isSome) → t.length % 2 = 0 →
    (hexPairs t).isSome
  | [], _, _ => by simp [hexPairs]
  | [c], _, hl => by simp at hl
  | c1 :: c2 :: r, hall, hl => by
    have ih := hexPairs_complete r (fun c hc => hall c (by simp [hc]))
      (by simp only [List.length_cons] at hl ⊢; omega)
    simp only [hexPairs]
    cases hv1 : hexVal c1 with
    | none =>
      have := hall c1 (by simp)
      rw [hv1] at this; cases this
    | some h1 =>
      cases hv2 : hexVal c2 with
      | none =>
        have := hall c2 (by simp)
        rw [hv2] at this; cases this
      | some h2 =>
        cases hr : hexPairs r with
        | none => rw [hr] at ih; cases ih
        | some rs => rfl

theorem hexPairs_flatMap_byteHex :
    ∀ (a : List Nat), (∀ x ∈ a, x < 256) → hexPairs (a.flatMap byteHex) = some a := by
  intro a
  induction a with
  | nil => intro _; rfl
  | cons x xs ih =>
    intro ha
    have hx : x < 256 := ha x (by simp)
    show hexPairs (hexCh (x / 16) :: hexCh (x % 16) :: xs.flatMap byteHex) = some (x :: xs)
    simp only [hexPairs, hexVal_hexCh (show x / 16 < 16 by omega),
      hexVal_hexCh (show x % 16 < 16 by omega), ih (fun z hz => ha z (by simp [hz]))]
    congr 2
    omega

theorem length_flatMap_byteHex (a : List Nat) : (a.flatMap byteHex).length = 2 * a.length := by
  induction a with
  | nil => rfl
  | cons x xs ih => simp [byteHex, ih]; omega

/-- Claim C7: the address codec branches on the human-readable capability: in
the human-readable branch an address serializes as its 0x-prefixed lowercase
hex display string and deserialization accepts exactly hex-address literals
(failing on anything malformed); in the binary branch it serializes as its 20
raw bytes and deserialization reads exactly 20 bytes; both branches decode an
encoded address back to the original. -/
theorem claim_C7_address_codec :
    (∀ a : Address, wfAddr a →
      AddressBytes.serialize true a = .str (addressHex a) ∧
        AddressBytes.deserializeHuman (addressHex a) = some a) ∧
    (∀ a : Address, wfAddr a →
      AddressBytes.serialize false a = .bytes a ∧
        AddressBytes.deserializeBinary a = some a) ∧
    (∀ s : Str, (AddressBytes.deserializeHuman s).isSome ↔ hexAddrLiteral s) := by
  refine ⟨?_, ?_, ?_⟩
  · intro a ⟨hlen, hbytes⟩
    refine ⟨rfl, ?_⟩
    show addressFromStr (addressHex a) = some a
    unfold addressFromStr
    have hstrip : strip0x (addressHex a) = a.flatMap byteHex := rfl
    rw [hstrip, hexPairs_flatMap_byteHex a hbytes, Option.some_bind, if_pos hlen]
  · intro a ⟨hlen, _⟩
    exact ⟨rfl, by unfold AddressBytes.deserializeBinary; rw [if_pos hlen]⟩
  · intro s
    unfold AddressBytes.deserializeHuman addressFromStr hexAddrLiteral
    constructor
    · intro h
      cases hp : hexPairs (strip0x s) with
      | none => rw [hp] at h; cases h
      | some bs =>
        rw [hp, Option.some_bind] at h
        by_cases h20 : bs.length = 20
        · obtain ⟨hl, hall⟩ := hexPairs_sound _ _ hp
          exact ⟨by omega, fun c hc => (hexVal_isSome_iff c).mp (hall c hc)⟩
        · rw [if_neg h20] at h; cases h
    · intro ⟨hl, hall⟩
      have hsome := hexPairs_complete (strip0x s)
        (fun c hc => (hexVal_isSome_iff c).mpr (hall c hc)) (by omega)
      cases hp : hexPairs (strip0x s) with
      | none => rw [hp] at hsome; cases hsome
      | some bs =>
        obtain ⟨hlen2, _⟩ := hexPairs_sound _ _ hp
        rw [Option.some_bind, if_pos (by omega)]
        rfl

/-- Witness for claim C7 at a concrete well-formed address. -/
theorem claim_C7_address_codec_witness :
    AddressBytes.deserializeHuman (addressHex (List.replicate 20 171)) =
        some (List.replicate 20 171) ∧
      AddressBytes.deserializeBinary (List.replicate 20 171) = some (List.replicate 20 171) := by
  refine ⟨(claim_C7_address_codec.1 (List.replicate 20 171) (by decide)).2,
    (claim_C7_address_codec.2.1 (List.replicate 20 171) (by decide)).2⟩

/-- Errors arising in `Subscription::try_from`: the `u64 → i64` conversion
error raised by `t.try_into()?`, and the explicit `anyhow!("invalid
timestamp")` raised when `NaiveDateTime::from_timestamp_opt` returns `None`. -/
inductive SubErr where
  | intConversion
  | invalidTimestamp
  deriving DecidableEq

/-- Largest `i64` value (`t.try_into()` fails above it). -/
def i64Max : Nat := 9223372036854775807

/-- Largest Unix-seconds value chrono's `NaiveDateTime::from_timestamp_opt`
accepts: 23:59:59 on `NaiveDate::MAX` = December 31 of year 262143 CE
(`MAX_YEAR = i32::MAX >> 13`). -/
def chronoMaxTimestamp : Nat := 8210298412799

/-- The closure `to_datetime` inside `Subscription::try_from`: convert the
`u64` to `i64` (failing above `i64::MAX`), then build the calendar instant
(failing outside chrono's representable range).  The resulting `DateTime` is
modelled by its Unix-seconds timestamp. -/
def to_datetime (t : Nat) : Except SubErr Int :=
  if t ≤ i64Max then
    if t ≤ chronoMaxTimestamp then .ok (Int.ofNat t) else .error .invalidTimestamp
  else .error .intConversion

/-- A validated subscription (struct `Subscription`): two calendar instants
(modelled by their Unix timestamps) and a `u128` rate. -/
structure Subscription where
  start : Int
  «end» : Int
  rate : Nat
  deriving DecidableEq

/-- The `TryFrom<(u64, u64, u128)>` conversion for `Subscription`. -/
def Subscription.try_from (from_tuple : Nat × Nat × Nat) : Except SubErr Subscription :=
  match to_datetime from_tuple.1 with
  | .error e => .error e
  | .ok s =>
    match to_datetime from_tuple.2.1 with
    | .error e => .error e
    | .ok e => .ok ⟨s, e, from_tuple.2.2⟩

/-- Counterexample to claim C8 as stated: a start value of 2^63 cannot
represent a valid calendar instant, yet the conversion fails with the
integer-conversion error from `t.try_into()?`, not with the
invalid-timestamp error. -/
theorem claim_C8_counterexample :
    Subscription.try_from (9223372036854775808, 0, 0) = .error .intConversion ∧
      SubErr.intConversion ≠ SubErr.invalidTimestamp := by
  constructor
  · rfl
  · decide

/-- Claim C8 as amended: `(0, 0, 0)` converts to a subscription with both
timestamps at the Unix epoch and rate 0; a start or end value that cannot
represent a valid calendar instant fails — with the invalid-timestamp error
when the value fits in `i64` but lies outside chrono's range, and with the
integer-conversion error (from `t.try_into()?`) when it exceeds `i64::MAX`. -/
theorem claim_C8_amended_subscription_conversion :
    Subscription.try_from (0, 0, 0) = .ok ⟨0, 0, 0⟩ ∧
    (∀ s e r : Nat, s ≤ i64Max → chronoMaxTimestamp < s →
      Subscription.try_from (s, e, r) = .error .invalidTimestamp) ∧
    (∀ s e r : Nat, i64Max < s → Subscription.try_from (s, e, r) = .error .intConversion) ∧
    (∀ s e r : Nat, s ≤ chronoMaxTimestamp → e ≤ i64Max → chronoMaxTimestamp < e →
      Subscription.try_from (s, e, r) = .error .invalidTimestamp) ∧
    (∀ s e r : Nat, s ≤ chronoMaxTimestamp → i64Max < e →
      Subscription.try_from (s, e, r) = .error .intConversion) ∧
    (∀ s e r : Nat, s ≤ chronoMaxTimestamp → e ≤ chronoMaxTimestamp →
      Subscription.try_from (s, e, r) = .ok ⟨Int.ofNat s, Int.ofNat e, r⟩) := by
  have hlt : chronoMaxTimestamp < i64Max := by unfold chronoMaxTimestamp i64Max; omega
  refine ⟨rfl, ?_, ?_, ?_, ?_, ?_⟩
  · intro s e r h1 h2
    unfold Subscription.try_from to_datetime
    dsimp only
    rw [if_pos h1, if_neg (by omega)]
  · intro s e r h1
    unfold Subscription.try_from to_datetime
    dsimp only
    rw [if_neg (by omega)]
  · intro s e r h1 h2 h3
    unfold Subscription.try_from to_datetime
    dsimp only
    rw [if_pos (by omega), if_pos h1, if_pos h2, if_neg (by omega)]
  · intro s e r h1 h2
    unfold Subscription.try_from to_datetime
    dsimp only
    rw [if_pos (by omega), if_pos h1, if_neg (by omega)]
  · intro s e r h1 h2
    unfold Subscription.try_from to_datetime
    dsimp only
    rw [if_pos (by omega), if_pos h1, if_pos (by omega), if_pos h2]

/-- Witness for the amended claim C8 at concrete inputs. -/
theorem claim_C8_amended_subscription_conversion_witness :
    Subscription.try_from (8210298412800, 0, 0) = .error .invalidTimestamp ∧
      Subscription.try_from (1, 2, 3) = .ok ⟨1, 2, 3⟩ := by
  constructor
  · exact claim_C8_amended_subscription_conversion.2.1 8210298412800 0 0 (by decide) (by decide)
  · exact claim_C8_amended_subscription_conversion.2.2.2.2.2 1 2 3 (by decide) (by decide)

/-! CBOR model.  Modelled from the spec (section 4.5 / section 6): the
"compact, deterministic binary encoding" is `serde_cbor_2` with the derived
`Serialize`/`Deserialize` instances of `TicketPayload`: a definite-length map
with text-string keys in field declaration order, absent `Option` fields
skipped (`#[skip_serializing_none]`), `u64` as a major-0 unsigned integer in
minimal width, addresses as 20-byte byte strings (binary mode of the address
codec), strings as UTF-8 text strings.  The decoder below covers the
definite-length subset of CBOR that the derived instances exercise (serde's
deserializer additionally accepts indefinite-length items, which never arise
from the encoder). -/

/-- Encode a CBOR item head: major type (0..7) and argument, minimal width,
as `serde_cbor_2`'s writer emits it. -/
def cborHead (major arg : Nat) : List Nat :=
  if arg < 24 then [major * 32 + arg]
  else if arg < 256 then [major * 32 + 24, arg]
  else if arg < 65536 then [major * 32 + 25, arg / 256 % 256, arg % 256]
  else if arg < 4294967296 then
    [major * 32 + 26, arg / 16777216 % 256, arg / 65536 % 256, arg / 256 % 256, arg % 256]
  else
    [major * 32 + 27, arg / 72057594037927936 % 256, arg / 281474976710656 % 256,
      arg / 1099511627776 % 256, arg / 4294967296 % 256, arg / 16777216 % 256,
      arg / 65536 % 256, arg / 256 % 256, arg % 256]

/-- Read a CBOR item head: returns major type, argument and remaining bytes.
Accepts any definite-width argument encoding (as serde's reader does);
rejects reserved and indefinite info values 28..31. -/
def readHead : List Nat → Option (Nat × Nat × List Nat)
  | [] => none
  | b :: bs =>
    if b % 32 < 24 then some (b / 32, b % 32, bs)
    else if b % 32 = 24 then
      match bs with
      | a :: r => some (b / 32, a, r)
      | _ => none
    else if b % 32 = 25 then
      match bs with
      | a1 :: a2 :: r => some (b / 32, a1 * 256 + a2, r)
      | _ => none
    else if b % 32 = 26 then
      match bs with
      | a1 :: a2 :: a3 :: a4 :: r =>
        some (b / 32, ((a1 * 256 + a2) * 256 + a3) * 256 + a4, r)
      | _ => none
    else if b % 32 = 27 then
      match bs with
      | a1 :: a2 :: a3 :: a4 :: a5 :: a6 :: a7 :: a8 :: r =>
        some (b / 32,
          ((((((a1 * 256 + a2) * 256 + a3) * 256 + a4) * 256 + a5) * 256 + a6) * 256 + a7) * 256
            + a8, r)
      | _ => none
    else none

/-- Take exactly `n` bytes off the front, failing on underrun. -/
def readSlice (n : Nat) (l : List Nat) : Option (List Nat × List Nat) :=
  if n ≤ l.length then some (l.take n, l.drop n) else none

/-- Read a `u64`-style unsigned integer (major type 0). -/
def readUInt (l : List Nat) : Option (Nat × List Nat) :=
  (readHead l).bind fun mnr => if mnr.1 = 0 then some (mnr.2.1, mnr.2.2) else none

/-- Read a byte string (major type 2). -/
def readByteStr (l : List Nat) : Option (List Nat × List Nat) :=
  (readHead l).bind fun mnr =>
    if mnr.1 = 2 then readSlice mnr.2.1 mnr.2.2 else none

/-- Read a text string (major type 3) and validate its UTF-8 content. -/
def readTextStr (l : List Nat) : Option (Str × List Nat) :=
  (readHead l).bind fun mnr =>
    if mnr.1 = 3 then
      (readSlice mnr.2.1 mnr.2.2).bind fun br =>
        (utf8Decode br.1).map fun s => (s, br.2)
    else none

/-- Read a 20-byte address in binary mode (`serde_with::Bytes` into
`[u8; 20]` rejects any other length). -/
def readAddr20 (l : List Nat) : Option (List Nat × List Nat) :=
  (readByteStr l).bind fun br => if br.1.length = 20 then some br else none

/-- Skip the value under an unknown map key (serde's `IgnoredAny`), for the
non-nested value shapes of the modelled subset. -/
def skipValue (l : List Nat) : Option (List Nat) :=
  (readHead l).bind fun mnr =>
    if mnr.1 = 0 ∨ mnr.1 = 1 ∨ mnr.1 = 7 then some mnr.2.2
    else if mnr.1 = 2 ∨ mnr.1 = 3 then (readSlice mnr.2.1 mnr.2.2).map (fun br => br.2)
    else none

/-- Accumulator for the derived `Deserialize` of `TicketPayload`: each field
slot is filled at most once (a second occurrence is a duplicate-field
error). -/
structure FieldSlots where
  chain_id : Option Nat
  contract : Option Address
  signer : Option Address
  user : Option Address
  name : Option Str
  allowed_subgraphs : Option Str
  allowed_deployments : Option Str
  allowed_domains : Option Str
  deriving DecidableEq

def emptySlots : FieldSlots := ⟨none, none, none, none, none, none, none, none⟩

/-- Dispatch one map entry's value according to its key, duplicate keys
failing and unknown keys being skipped (serde ignores unknown fields). -/
def readField (key : Str) (b : List Nat) (st : FieldSlots) :
    Option (FieldSlots × List Nat) :=
  if key = "chain_id".toList then
    match st.chain_id with
    | some _ => none
    | none => (readUInt b).map (fun nr => ({ st with chain_id := some nr.1 }, nr.2))
  else if key = "contract".toList then
    match st.contract with
    | some _ => none
    | none => (readAddr20 b).map (fun ar => ({ st with contract := some ar.1 }, ar.2))
  else if key = "signer".toList then
    match st.signer with
    | some _ => none
    | none => (readAddr20 b).map (fun ar => ({ st with signer := some ar.1 }, ar.2))
  else if key = "user".toList then
    match st.user with
    | some _ => none
    | none => (readAddr20 b).map (fun ar => ({ st with user := some ar.1 }, ar.2))
  else if key = "name".toList then
    match st.name with
    | some _ => none
    | none => (readTextStr b).map (fun sr => ({ st with name := some sr.1 }, sr.2))
  else if key = "allowed_subgraphs".toList then
    match st.allowed_subgraphs with
    | some _ => none
    | none => (readTextStr b).map (fun sr => ({ st with allowed_subgraphs := some sr.1 }, sr.2))
  else if key = "allowed_deployments".toList then
    match st.allowed_deployments with
    | some _ => none
    | none => (readTextStr b).map (fun sr => ({ st with allowed_deployments := some sr.1 }, sr.2))
  else if key = "allowed_domains".toList then
    match st.allowed_domains with
    | some _ => none
    | none => (readTextStr b).map (fun sr => ({ st with allowed_domains := some sr.1 }, sr.2))
  else (skipValue b).map (fun r => (st, r))

/-- Read the given number of key/value map entries. -/
def readPairs : Nat → List Nat → FieldSlots → Option (FieldSlots × List Nat)
  | 0, b, st => some (st, b)
  | k + 1, b, st =>
    (readTextStr b).bind fun ks =>
      (readField ks.1 ks.2 st).bind fun sr => readPairs k sr.2 sr.1

/-- Build the payload once all entries are consumed; the three non-optional
fields must have been seen (serde's missing-field error otherwise). -/
def finalizePayload (st : FieldSlots) : Option TicketPayload :=
  match st.chain_id, st.contract, st.signer with
  | some c, some ct, some sg =>
    some ⟨c, ct, sg, st.user, st.name, st.allowed_subgraphs, st.allowed_deployments,
      st.allowed_domains⟩
  | _, _, _ => none

/-- Deserialize a `TicketPayload` from CBOR bytes
(`serde_cbor_2::de::from_reader`): one definite-length map holding the
fields, with no trailing bytes (`Deserializer::end`). -/
def decodePayload (l : List Nat) : Option TicketPayload :=
  (readHead l).bind fun mnr =>
    if mnr.1 = 5 then
      (readPairs mnr.2.1 mnr.2.2 emptySlots).bind fun sr =>
        if sr.2 = [] then finalizePayload sr.1 else none
    else none

/-- CBOR text string of a Lean string. -/
def cborText (s : Str) : List Nat := cborHead 3 (utf8 s).length ++ utf8 s

/-- CBOR byte string. -/
def cborBytesV (b : List Nat) : List Nat := cborHead 2 b.length ++ b

/-- Encoded map key. -/
def keyEnc (k : String) : List Nat := cborText k.toList

/-- The present fields of a payload, in declaration order, paired with their
encoded values — exactly what the derived `Serialize` emits
(`#[skip_serializing_none]` drops the absent options). -/
def presentFields (p : TicketPayload) : List (String × List Nat) :=
  [("chain_id", cborHead 0 p.chain_id),
   ("contract", cborBytesV p.contract),
   ("signer", cborBytesV p.signer)]
  ++ (match p.user with | some u => [("user", cborBytesV u)] | none => [])
  ++ (match p.name with | some v => [("name", cborText v)] | none => [])
  ++ (match p.allowed_subgraphs with
      | some v => [("allowed_subgraphs", cborText v)] | none => [])
  ++ (match p.allowed_deployments with
      | some v => [("allowed_deployments", cborText v)] | none => [])
  ++ (match p.allowed_domains with
      | some v => [("allowed_domains", cborText v)] | none => [])

/-- Serialize a `TicketPayload` to CBOR (`serde_cbor_2::ser::to_vec`): a
definite-length map of the present fields. -/
def TicketPayload.to_cbor (p : TicketPayload) : List Nat :=
  cborHead 5 (presentFields p).length ++
    (presentFields p).flatMap (fun kv => keyEnc kv.1 ++ kv.2)

theorem readHead_cborHead (m arg : Nat) (r : List Nat)
    (h : arg < 18446744073709551616) :
    readHead (cborHead m arg ++ r) = some (m, arg, r) := by
  unfold cborHead
  by_cases h1 : arg < 24
  · rw [if_pos h1]
    have e1 : (m * 32 + arg) % 32 = arg := by omega
    have e2 : (m * 32 + arg) / 32 = m := by omega
    simp only [List.cons_append, List.nil_append, readHead, e1, e2, if_pos h1]
  · rw [if_neg h1]
    by_cases h2 : arg < 256
    · rw [if_pos h2]
      have e1 : (m * 32 + 24) % 32 = 24 := by omega
      have e2 : (m * 32 + 24) / 32 = m := by omega
      simp only [List.cons_append, List.nil_append, readHead, e1, e2]
      rw [if_neg (by omega), if_pos trivial]
    · rw [if_neg h2]
      by_cases h3 : arg < 65536
      · rw [if_pos h3]
        have e1 : (m * 32 + 25) % 32 = 25 := by omega
        have e2 : (m * 32 + 25) / 32 = m := by omega
        simp only [List.cons_append, List.nil_append, readHead, e1, e2]
        rw [if_neg (by omega), if_neg (by omega), if_pos trivial]
        have : arg / 256 % 256 * 256 + arg % 256 = arg := by omega
        rw [this]
      · rw [if_neg h3]
        by_cases h4 : arg < 4294967296
        · rw [if_pos h4]
          have e1 : (m * 32 + 26) % 32 = 26 := by omega
          have e2 : (m * 32 + 26) / 32 = m := by omega
          simp only [List.cons_append, List.nil_append, readHead, e1, e2]
          rw [if_neg (by omega), if_neg (by omega), if_neg (by omega), if_pos trivial]
          have : ((arg / 16777216 % 256 * 256 + arg / 65536 % 256) * 256 + arg / 256 % 256) * 256
              + arg % 256 = arg := by omega
          rw [this]
        · rw [if_neg h4]
          have e1 : (m * 32 + 27) % 32 = 27 := by omega
          have e2 : (m * 32 + 27) / 32 = m := by omega
          simp only [List.cons_append, List.nil_append, readHead, e1, e2]
          rw [if_neg (by omega), if_neg (by omega), if_neg (by omega), if_neg (by omega),
            if_pos trivial]
          have : ((((((arg / 72057594037927936 % 256 * 256 + arg / 281474976710656 % 256) * 256
              + arg / 1099511627776 % 256) * 256 + arg / 4294967296 % 256) * 256
              + arg / 16777216 % 256) * 256 + arg / 65536 % 256) * 256 + arg / 256 % 256) * 256
              + arg % 256 = arg := by omega
          rw [this]

theorem readSlice_append (b r : List Nat) : readSlice b.length (b ++ r) = some (b, r) := by
  unfold readSlice
  rw [if_pos (by rw [List.length_append]; omega)]
  rw [List.take_left, List.drop_left]

theorem readUInt_enc (n : Nat) (r : List Nat) (h : n < 18446744073709551616) :
    readUInt (cborHead 0 n ++ r) = some (n, r) := by
  unfold readUInt
  rw [readHead_cborHead 0 n r h, Option.some_bind]
  simp

theorem readByteStr_enc (b r : List Nat) (h : b.length < 18446744073709551616) :
    readByteStr (cborBytesV b ++ r) = some (b, r) := by
  unfold readByteStr cborBytesV
  rw [List.append_assoc, readHead_cborHead 2 b.length _ h, Option.some_bind]
  exact readSlice_append b r

theorem readTextStr_enc (s : Str) (r : List Nat) (h : (utf8 s).length < 18446744073709551616) :
    readTextStr (cborText s ++ r) = some (s, r) := by
  unfold readTextStr cborText
  rw [List.append_assoc, readHead_cborHead 3 _ _ h, Option.some_bind]
  simp only [readSlice_append (utf8 s) r, Option.some_bind, utf8Decode_utf8, Option.map_some']
  rw [if_pos trivial]

theorem readAddr20_enc (a : Address) (r : List Nat) (ha : wfAddr a) :
    readAddr20 (cborBytesV a ++ r) = some (a, r) := by
  unfold readAddr20
  rw [readByteStr_enc a r (by rw [ha.1]; omega), Option.some_bind, if_pos ha.1]

/-- Well-formedness of an optional string field for serialization: its UTF-8
byte length fits the `u64` length header (always true of a Rust `String`). -/
def wfOptStr : Option Str → Prop
  | none => True
  | some s => (utf8 s).length < 18446744073709551616

instance (o : Option Str) : Decidable (wfOptStr o) := by
  cases o <;> unfold wfOptStr <;> infer_instance

/-- Well-formedness of an optional address field. -/
def wfOptAddr : Option Address → Prop
  | none => True
  | some a => wfAddr a

instance (o : Option Address) : Decidable (wfOptAddr o) := by
  cases o <;> unfold wfOptAddr <;> infer_instance

/-- A payload as the Rust type invariants guarantee it: `chain_id` is a
`u64`, the addresses are 20-byte arrays, and string lengths fit `u64`. -/
def wfPayload (p : TicketPayload) : Prop :=
  p.chain_id < 18446744073709551616 ∧ wfAddr p.contract ∧ wfAddr p.signer ∧
    wfOptAddr p.user ∧ wfOptStr p.name ∧ wfOptStr p.allowed_subgraphs ∧
    wfOptStr p.allowed_deployments ∧ wfOptStr p.allowed_domains

instance (p : TicketPayload) : Decidable (wfPayload p) := by
  unfold wfPayload; infer_instance

/-- Field count contributed by one optional field. -/
def oc {α : Type _} : Option α → Nat
  | some _ => 1
  | none => 0

theorem readPairs_succ (k : Nat) (b : List Nat) (st : FieldSlots) :
    readPairs (k + 1) b st =
      (readTextStr b).bind fun ks =>
        (readField ks.1 ks.2 st).bind fun sr => readPairs k sr.2 sr.1 := rfl

theorem pairStep_chain_id (k n : Nat) (r : List Nat) (st : FieldSlots)
    (hn : n < 18446744073709551616) (hst : st.chain_id = none) :
    readPairs (k + 1) (keyEnc "chain_id" ++ (cborHead 0 n ++ r)) st =
      readPairs k r { st with chain_id := some n } := by
  rw [readPairs_succ, keyEnc, readTextStr_enc _ _ (by decide), Option.some_bind]
  dsimp only
  unfold readField
  rw [if_pos rfl, hst]
  rw [readUInt_enc n r hn]
  rfl

theorem pairStep_contract (k : Nat) (a : Address) (r : List Nat) (st : FieldSlots)
    (ha : wfAddr a) (hst : st.contract = none) :
    readPairs (k + 1) (keyEnc "contract" ++ (cborBytesV a ++ r)) st =
      readPairs k r { st with contract := some a } := by
  rw [readPairs_succ, keyEnc, readTextStr_enc _ _ (by decide), Option.some_bind]
  dsimp only
  unfold readField
  rw [if_neg (by decide), if_pos rfl, hst]
  rw [readAddr20_enc a r ha]
  rfl

theorem pairStep_signer (k : Nat) (a : Address) (r : List Nat) (st : FieldSlots)
    (ha : wfAddr a) (hst : st.signer = none) :
    readPairs (k + 1) (keyEnc "signer" ++ (cborBytesV a ++ r)) st =
      readPairs k r { st with signer := some a } := by
  rw [readPairs_succ, keyEnc, readTextStr_enc _ _ (by decide), Option.some_bind]
  dsimp only
  unfold readField
  rw [if_neg (by decide), if_neg (by decide), if_pos rfl, hst]
  rw [readAddr20_enc a r ha]
  rfl

theorem pairStep_user (k : Nat) (a : Address) (r : List Nat) (st : FieldSlots)
    (ha : wfAddr a) (hst : st.user = none) :
    readPairs (k + 1) (keyEnc "user" ++ (cborBytesV a ++ r)) st =
      readPairs k r { st with user := some a } := by
  rw [readPairs_succ, keyEnc, readTextStr_enc _ _ (by decide), Option.some_bind]
  dsimp only
  unfold readField
  rw [if_neg (by decide), if_neg (by decide), if_neg (by decide), if_pos rfl, hst]
  rw [readAddr20_enc a r ha]
  rfl

theorem pairStep_name (k : Nat) (v : Str) (r : List Nat) (st : FieldSlots)
    (hv : (utf8 v).length < 18446744073709551616) (hst : st.name = none) :
    readPairs (k + 1) (keyEnc "name" ++ (cborText v ++ r)) st =
      readPairs k r { st with name := some v } := by
  rw [readPairs_succ, keyEnc, readTextStr_enc _ _ (by decide), Option.some_bind]
  dsimp only
  unfold readField
  rw [if_neg (by decide), if_neg (by decide), if_neg (by decide), if_neg (by decide),
    if_pos rfl, hst]
  rw [readTextStr_enc v r hv]
  rfl

theorem pairStep_allowed_subgraphs (k : Nat) (v : Str) (r : List Nat) (st : FieldSlots)
    (hv : (utf8 v).length < 18446744073709551616) (hst : st.allowed_subgraphs = none) :
    readPairs (k + 1) (keyEnc "allowed_subgraphs" ++ (cborText v ++ r)) st =
      readPairs k r { st with allowed_subgraphs := some v } := by
  rw [readPairs_succ, keyEnc, readTextStr_enc _ _ (by decide), Option.some_bind]
  dsimp only
  unfold readField
  rw [if_neg (by decide), if_neg (by decide), if_neg (by decide), if_neg (by decide),
    if_neg (by decide), if_pos rfl, hst]
  rw [readTextStr_enc v r hv]
  rfl

theorem pairStep_allowed_deployments (k : Nat) (v : Str) (r : List Nat) (st : FieldSlots)
    (hv : (utf8 v).length < 18446744073709551616) (hst : st.allowed_deployments = none) :
    readPairs (k + 1) (keyEnc "allowed_deployments" ++ (cborText v ++ r)) st =
      readPairs k r { st with allowed_deployments := some v } := by
  rw [readPairs_succ, keyEnc, readTextStr_enc _ _ (by decide), Option.some_bind]
  dsimp only
  unfold readField
  rw [if_neg (by decide), if_neg (by decide), if_neg (by decide), if_neg (by decide),
    if_neg (by decide), if_neg (by decide), if_pos rfl, hst]
  rw [readTextStr_enc v r hv]
  rfl

theorem pairStep_allowed_domains (k : Nat) (v : Str) (r : List Nat) (st : FieldSlots)
    (hv : (utf8 v).length < 18446744073709551616) (hst : st.allowed_domains = none) :
    readPairs (k + 1) (keyEnc "allowed_domains" ++ (cborText v ++ r)) st =
      readPairs k r { st with allowed_domains := some v } := by
  rw [readPairs_succ, keyEnc, readTextStr_enc _ _ (by decide), Option.some_bind]
  dsimp only
  unfold readField
  rw [if_neg (by decide), if_neg (by decide), if_neg (by decide), if_neg (by decide),
    if_neg (by decide), if_neg (by decide), if_neg (by decide), if_pos rfl, hst]
  rw [readTextStr_enc v r hv]
  rfl

theorem slotsEta_user (st : FieldSlots) (hst : st.user = none) :
    st = { st with user := none } := by
  cases st
  simp only [FieldSlots.user] at hst
  rw [hst]

theorem slotsEta_name (st : FieldSlots) (hst : st.name = none) :
    st = { st with name := none } := by
  cases st
  simp only [FieldSlots.name] at hst
  rw [hst]

theorem slotsEta_asg (st : FieldSlots) (hst : st.allowed_subgraphs = none) :
    st = { st with allowed_subgraphs := none } := by
  cases st
  simp only [FieldSlots.allowed_subgraphs] at hst
  rw [hst]

theorem slotsEta_adp (st : FieldSlots) (hst : st.allowed_deployments = none) :
    st = { st with allowed_deployments := none } := by
  cases st
  simp only [FieldSlots.allowed_deployments] at hst
  rw [hst]

theorem slotsEta_adm (st : FieldSlots) (hst : st.allowed_domains = none) :
    st = { st with allowed_domains := none } := by
  cases st
  simp only [FieldSlots.allowed_domains] at hst
  rw [hst]

/-- Encoded bytes contributed by the optional `user` field. -/
def optEncU (o : Option Address) : List Nat :=
  match o with
  | some a => keyEnc "user" ++ cborBytesV a
  | none => []

/-- Encoded bytes contributed by one optional string field. -/
def optEncS (nm : String) (o : Option Str) : List Nat :=
  match o with
  | some v => keyEnc nm ++ cborText v
  | none => []

theorem stepOpt_user (k : Nat) (rest : List Nat) (st : FieldSlots) (u : Option Address)
    (hu : wfOptAddr u) (hst : st.user = none) :
    readPairs (oc u + k) (optEncU u ++ rest) st = readPairs k rest { st with user := u } := by
  cases u with
  | none =>
    simp only [oc, optEncU, List.nil_append, Nat.zero_add]
    rw [← slotsEta_user st hst]
  | some a =>
    simp only [oc, optEncU, List.append_assoc]
    rw [show 1 + k = k + 1 by omega]
    exact pairStep_user k a rest st hu hst

theorem stepOpt_name (k : Nat) (rest : List Nat) (st : FieldSlots) (o : Option Str)
    (ho : wfOptStr o) (hst : st.name = none) :
    readPairs (oc o + k) (optEncS "name" o ++ rest) st =
      readPairs k rest { st with name := o } := by
  cases o with
  | none =>
    simp only [oc, optEncS, List.nil_append, Nat.zero_add]
    rw [← slotsEta_name st hst]
  | some v =>
    simp only [oc, optEncS, List.append_assoc]
    rw [show 1 + k = k + 1 by omega]
    exact pairStep_name k v rest st ho hst

theorem stepOpt_asg (k : Nat) (rest : List Nat) (st : FieldSlots) (o : Option Str)
    (ho : wfOptStr o) (hst : st.allowed_subgraphs = none) :
    readPairs (oc o + k) (optEncS "allowed_subgraphs" o ++ rest) st =
      readPairs k rest { st with allowed_subgraphs := o } := by
  cases o with
  | none =>
    simp only [oc, optEncS, List.nil_append, Nat.zero_add]
    rw [← slotsEta_asg st hst]
  | some v =>
    simp only [oc, optEncS, List.append_assoc]
    rw [show 1 + k = k + 1 by omega]
    exact pairStep_allowed_subgraphs k v rest st ho hst

theorem stepOpt_adp (k : Nat) (rest : List Nat) (st : FieldSlots) (o : Option Str)
    (ho : wfOptStr o) (hst : st.allowed_deployments = none) :
    readPairs (oc o + k) (optEncS "allowed_deployments" o ++ rest) st =
      readPairs k rest { st with allowed_deployments := o } := by
  cases o with
  | none =>
    simp only [oc, optEncS, List.nil_append, Nat.zero_add]
    rw [← slotsEta_adp st hst]
  | some v =>
    simp only [oc, optEncS, List.append_assoc]
    rw [show 1 + k = k + 1 by omega]
    exact pairStep_allowed_deployments k v rest st ho hst

theorem stepOpt_adm (k : Nat) (rest : List Nat) (st : FieldSlots) (o : Option Str)
    (ho : wfOptStr o) (hst : st.allowed_domains = none) :
    readPairs (oc o + k) (optEncS "allowed_domains" o ++ rest) st =
      readPairs k rest { st with allowed_domains := o } := by
  cases o with
  | none =>
    simp only [oc, optEncS, List.nil_append, Nat.zero_add]
    rw [← slotsEta_adm st hst]
  | some v =>
    simp only [oc, optEncS, List.append_assoc]
    rw [show 1 + k = k + 1 by omega]
    exact pairStep_allowed_domains k v rest st ho hst

theorem presentFields_length (p : TicketPayload) :
    (presentFields p).length =
      3 + (oc p.user + (oc p.name + (oc p.allowed_subgraphs +
        (oc p.allowed_deployments + (oc p.allowed_domains + 0))))) := by
  cases hu : p.user <;> cases hn : p.name <;> cases ha : p.allowed_subgraphs <;>
    cases hd : p.allowed_deployments <;> cases hm : p.allowed_domains <;>
    simp [presentFields, oc, hu, hn, ha, hd, hm]

theorem presentFields_length_le (p : TicketPayload) : (presentFields p).length ≤ 8 := by
  rw [presentFields_length]
  cases p.user <;> cases p.name <;> cases p.allowed_subgraphs <;>
    cases p.allowed_deployments <;> cases p.allowed_domains <;> simp [oc]

theorem to_cbor_eq (p : TicketPayload) :
    p.to_cbor = cborHead 5 (presentFields p).length ++
      (keyEnc "chain_id" ++ (cborHead 0 p.chain_id ++
      (keyEnc "contract" ++ (cborBytesV p.contract ++
      (keyEnc "signer" ++ (cborBytesV p.signer ++
      (optEncU p.user ++
      (optEncS "name" p.name ++
      (optEncS "allowed_subgraphs" p.allowed_subgraphs ++
      (optEncS "allowed_deployments" p.allowed_deployments ++
      (optEncS "allowed_domains" p.allowed_domains ++ []))))))))))) := by
  cases hu : p.user <;> cases hn : p.name <;> cases ha : p.allowed_subgraphs <;>
    cases hd : p.allowed_deployments <;> cases hm : p.allowed_domains <;>
    simp [TicketPayload.to_cbor, presentFields, optEncU, optEncS, hu, hn, ha, hd, hm,
      List.append_assoc]

/-- CBOR round trip: deserializing the serialization of a well-formed payload
recovers the payload exactly (presence and absence of every optional field
included). -/
theorem decodePayload_to_cbor (p : TicketPayload) (h : wfPayload p) :
    decodePayload p.to_cbor = some p := by
  obtain ⟨hc, hct, hsg, hu, hn, ha, hd, hm⟩ := h
  rw [to_cbor_eq]
  unfold decodePayload
  rw [readHead_cborHead 5 _ _ (by have := presentFields_length_le p; omega), Option.some_bind]
  dsimp only
  rw [if_pos rfl, presentFields_length]
  rw [show 3 + (oc p.user + (oc p.name + (oc p.allowed_subgraphs +
      (oc p.allowed_deployments + (oc p.allowed_domains + 0))))) =
    (2 + (oc p.user + (oc p.name + (oc p.allowed_subgraphs +
      (oc p.allowed_deployments + (oc p.allowed_domains + 0)))))) + 1 by omega]
  rw [pairStep_chain_id _ _ _ _ hc rfl]
  rw [show 2 + (oc p.user + (oc p.name + (oc p.allowed_subgraphs +
      (oc p.allowed_deployments + (oc p.allowed_domains + 0))))) =
    (1 + (oc p.user + (oc p.name + (oc p.allowed_subgraphs +
      (oc p.allowed_deployments + (oc p.allowed_domains + 0)))))) + 1 by omega]
  rw [pairStep_contract _ _ _ _ hct rfl]
  rw [show 1 + (oc p.user + (oc p.name + (oc p.allowed_subgraphs +
      (oc p.allowed_deployments + (oc p.allowed_domains + 0))))) =
    (oc p.user + (oc p.name + (oc p.allowed_subgraphs +
      (oc p.allowed_deployments + (oc p.allowed_domains + 0))))) + 1 by omega]
  rw [pairStep_signer _ _ _ _ hsg rfl]
  rw [stepOpt_user _ _ _ _ hu rfl]
  rw [stepOpt_name _ _ _ _ hn rfl]
  rw [stepOpt_asg _ _ _ _ ha rfl]
  rw [stepOpt_adp _ _ _ _ hd rfl]
  rw [stepOpt_adm _ _ _ _ hm rfl]
  rfl

/-! Base64 model.  Modelled from the spec (section 4.5 / 4.6): the engine is
`base64::prelude::BASE64_URL_SAFE_NO_PAD` — URL-safe alphabet, no padding on
encode, decoding rejects padding, non-alphabet characters, a residual length
of 1 mod 4, and non-zero trailing bits (the engine's canonical-decode
default).  The encoder and decoder below work group-wise (3 bytes to 4
symbols), which is the same function computed streamingly by the crate. -/

/-- The URL-safe base64 alphabet. -/
def b64Alphabet : Str := "ABCDEFGHIJKLMNOPQRSTUVWXYZabcdefghijklmnopqrstuvwxyz0123456789-_".toList

/-- Symbol for a 6-bit value. -/
def b64Ch (v : Nat) : Char := b64Alphabet.getD v 'A'

/-- Value of a symbol, `none` for characters outside the alphabet. -/
def b64Val (c : Char) : Option Nat := b64Alphabet.indexOf? c

/-- URL-safe no-pad base64 encoding. -/
def b64encode : List Nat → Str
  | b1 :: b2 :: b3 :: rest =>
    b64Ch (b1 / 4) :: b64Ch (b1 % 4 * 16 + b2 / 16) :: b64Ch (b2 % 16 * 4 + b3 / 64) ::
      b64Ch (b3 % 64) :: b64encode rest
  | [b1, b2] =>
    [b64Ch (b1 / 4), b64Ch (b1 % 4 * 16 + b2 / 16), b64Ch (b2 % 16 * 4)]
  | [b1] => [b64Ch (b1 / 4), b64Ch (b1 % 4 * 16)]
  | [] => []

/-- URL-safe no-pad base64 decoding, strict: any non-alphabet character, a
length of 1 mod 4, or non-zero trailing bits in a final short group is an
error. -/
def b64decode : Str → Option (List Nat)
  | c1 :: c2 :: c3 :: c4 :: rest =>
    match b64Val c1, b64Val c2, b64Val c3, b64Val c4, b64decode rest with
    | some v1, some v2, some v3, some v4, some bs =>
      some ((v1 * 4 + v2 / 16) :: (v2 % 16 * 16 + v3 / 4) :: (v3 % 4 * 64 + v4) :: bs)
    | _, _, _, _, _ => none
  | [c1, c2, c3] =>
    match b64Val c1, b64Val c2, b64Val c3 with
    | some v1, some v2, some v3 =>
      if v3 % 4 = 0 then some [v1 * 4 + v2 / 16, v2 % 16 * 16 + v3 / 4] else none
    | _, _, _ => none
  | [c1, c2] =>
    match b64Val c1, b64Val c2 with
    | some v1, some v2 => if v2 % 16 = 0 then some [v1 * 4 + v2 / 16] else none
    | _, _ => none
  | [_] => none
  | [] => some []

theorem b64Val_b64Ch (v : Nat) (h : v < 64) : b64Val (b64Ch v) = some v := by
  unfold b64Val b64Ch
  interval_cases v <;> decide

/-- Decoding inverts encoding on genuine byte lists. -/
theorem b64decode_b64encode : ∀ (b : List Nat), (∀ x ∈ b, x < 256) →
    b64decode (b64encode b) = some b
  | [], _ => rfl
  | [b1], h => by
    have h1 : b1 < 256 := h b1 (by simp)
    show b64decode [b64Ch (b1 / 4), b64Ch (b1 % 4 * 16)] = some [b1]
    simp only [b64decode, b64Val_b64Ch (b1 / 4) (by omega),
      b64Val_b64Ch (b1 % 4 * 16) (by omega)]
    rw [if_pos (by omega)]
    simp only [Option.some.injEq, List.cons.injEq, and_true]
    omega
  | [b1, b2], h => by
    have h1 : b1 < 256 := h b1 (by simp)
    have h2 : b2 < 256 := h b2 (by simp)
    show b64decode [b64Ch (b1 / 4), b64Ch (b1 % 4 * 16 + b2 / 16), b64Ch (b2 % 16 * 4)] =
      some [b1, b2]
    simp only [b64decode, b64Val_b64Ch (b1 / 4) (by omega),
      b64Val_b64Ch (b1 % 4 * 16 + b2 / 16) (by omega), b64Val_b64Ch (b2 % 16 * 4) (by omega)]
    rw [if_pos (by omega)]
    simp only [Option.some.injEq, List.cons.injEq, and_true]
    constructor
    · omega
    · omega
  | b1 :: b2 :: b3 :: rest, h => by
    have h1 : b1 < 256 := h b1 (by simp)
    have h2 : b2 < 256 := h b2 (by simp)
    have h3 : b3 < 256 := h b3 (by simp)
    have ih := b64decode_b64encode rest (fun x hx => h x (by simp [hx]))
    show b64decode (b64Ch (b1 / 4) :: b64Ch (b1 % 4 * 16 + b2 / 16) ::
      b64Ch (b2 % 16 * 4 + b3 / 64) :: b64Ch (b3 % 64) :: b64encode rest) = _
    simp only [b64decode, b64Val_b64Ch (b1 / 4) (by omega),
      b64Val_b64Ch (b1 % 4 * 16 + b2 / 16) (by omega),
      b64Val_b64Ch (b2 % 16 * 4 + b3 / 64) (by omega), b64Val_b64Ch (b3 % 64) (by omega), ih]
    simp only [Option.some.injEq, List.cons.injEq]
    refine ⟨by omega, by omega, by omega, trivial⟩

/-- All entries of a buffer are bytes. -/
def allBytes (l : List Nat) : Prop := ∀ x ∈ l, x < 256

instance (l : List Nat) : Decidable (allBytes l) := by unfold allBytes; infer_instance

theorem allBytes_nil : allBytes [] := by intro x hx; cases hx

theorem allBytes_append {a b : List Nat} (ha : allBytes a) (hb : allBytes b) :
    allBytes (a ++ b) := by
  intro x hx
  rw [List.mem_append] at hx
  rcases hx with hx | hx
  · exact ha x hx
  · exact hb x hx

theorem allBytes_cborHead (m arg : Nat) (hm : m ≤ 7) : allBytes (cborHead m arg) := by
  intro x hx
  unfold cborHead at hx
  split at hx
  · rcases hx with _ | ⟨_, hx⟩
    · omega
    · cases hx
  · split at hx
    · rcases hx with _ | ⟨_, hx⟩
      · omega
      · rcases hx with _ | ⟨_, hx⟩
        · omega
        · cases hx
    · split at hx
      · simp only [List.mem_cons, List.mem_singleton, List.not_mem_nil, or_false] at hx
        rcases hx with hx | hx | hx <;> omega
      · split at hx
        · simp only [List.mem_cons, List.mem_singleton, List.not_mem_nil, or_false] at hx
          rcases hx with hx | hx | hx | hx | hx <;> omega
        · simp only [List.mem_cons, List.mem_singleton, List.not_mem_nil, or_false] at hx
          rcases hx with hx | hx | hx | hx | hx | hx | hx | hx | hx <;> omega

theorem allBytes_utf8Char (c : Char) : allBytes (utf8Char c) := by
  have hv := char_toNat_valid c
  intro x hx
  unfold utf8Char at hx
  split at hx
  · rcases hx with _ | ⟨_, hx⟩
    · omega
    · cases hx
  · split at hx
    · simp only [List.mem_cons, List.mem_singleton, List.not_mem_nil, or_false] at hx
      rcases hx with hx | hx <;> omega
    · split at hx
      · simp only [List.mem_cons, List.mem_singleton, List.not_mem_nil, or_false] at hx
        rcases hx with hx | hx | hx <;> omega
      · simp only [List.mem_cons, List.mem_singleton, List.not_mem_nil, or_false] at hx
        rcases hx with hx | hx | hx | hx <;> omega

theorem allBytes_utf8 (s : Str) : allBytes (utf8 s) := by
  intro x hx
  unfold utf8 at hx
  rw [List.mem_flatMap] at hx
  obtain ⟨c, _, hc⟩ := hx
  exact allBytes_utf8Char c x hc

theorem allBytes_cborText (s : Str) : allBytes (cborText s) :=
  allBytes_append (allBytes_cborHead 3 _ (by omega)) (allBytes_utf8 s)

theorem allBytes_keyEnc (k : String) : allBytes (keyEnc k) := allBytes_cborText _

theorem allBytes_cborBytesV {a : List Nat} (ha : allBytes a) : allBytes (cborBytesV a) :=
  allBytes_append (allBytes_cborHead 2 _ (by omega)) ha

theorem allBytes_to_cbor (p : TicketPayload) (h : wfPayload p) : allBytes p.to_cbor := by
  obtain ⟨hc, hct, hsg, hu, hn, ha, hd, hm⟩ := h
  rw [to_cbor_eq]
  refine allBytes_append (allBytes_cborHead 5 _ (by omega)) ?_
  refine allBytes_append (allBytes_keyEnc _) ?_
  refine allBytes_append (allBytes_cborHead 0 _ (by omega)) ?_
  refine allBytes_append (allBytes_keyEnc _) ?_
  refine allBytes_append (allBytes_cborBytesV hct.2) ?_
  refine allBytes_append (allBytes_keyEnc _) ?_
  refine allBytes_append (allBytes_cborBytesV hsg.2) ?_
  refine allBytes_append ?_ (allBytes_append ?_ (allBytes_append ?_ (allBytes_append ?_
    (allBytes_append ?_ allBytes_nil))))
  · cases hup : p.user with
    | none => exact allBytes_nil
    | some a =>
      rw [hup] at hu
      exact allBytes_append (allBytes_keyEnc _) (allBytes_cborBytesV hu.2)
  · cases p.name with
    | none => exact allBytes_nil
    | some v => exact allBytes_append (allBytes_keyEnc _) (allBytes_cborText v)
  · cases p.allowed_subgraphs with
    | none => exact allBytes_nil
    | some v => exact allBytes_append (allBytes_keyEnc _) (allBytes_cborText v)
  · cases p.allowed_deployments with
    | none => exact allBytes_nil
    | some v => exact allBytes_append (allBytes_keyEnc _) (allBytes_cborText v)
  · cases p.allowed_domains with
    | none => exact allBytes_nil
    | some v => exact allBytes_append (allBytes_keyEnc _) (allBytes_cborText v)

/-- Modelled from the spec (sections 4.3, 4.4, 6): the external cryptographic
primitives — keccak256 and ECDSA address recovery (`ethers`' `hash_message` /
`Signature::recover`, not code of this repository).  `recover` takes the
32-byte digest and a 65-byte signature and returns the recovered address or a
recovery error. -/
structure Crypto where
  keccak256 : List Nat → List Nat
  recover : List Nat → List Nat → Except Unit Address

/-- Modelled from the spec (section 6): the signing capability — given a
digest it returns a 65-byte signature, and it carries the address derivable
from its key (`Wallet<SigningKey>`). -/
structure Wallet where
  signHash : List Nat → List Nat
  address : Address

/-- The EIP-191 personal-message envelope that `ethers::utils::hash_message`
hashes: the fixed prefix, the decimal byte length of the message, then the
message bytes. -/
def eip191_message (m : List Nat) : List Nat :=
  utf8 "\x19Ethereum Signed Message:\n".toList ++ utf8 (decRep m.length) ++ m

/-- `ethers::utils::hash_message`: keccak256 of the EIP-191 envelope. -/
def hash_message (C : Crypto) (m : List Nat) : List Nat := C.keccak256 (eip191_message m)

/-- The two failure modes of `TicketPayload::verify`: `signature.recover`
itself failing, and the `ensure!` mismatch between the recovered and the
claimed signer. -/
inductive VerifyErr where
  | recoverFailed
  | mismatch
  deriving DecidableEq

/-- The error taxonomy of `from_ticket_base64` (the spec's section 7 names):
base64 failure, signature extraction failure, payload deserialization
failure, and the two verification failures. -/
inductive TicketError where
  | invalidEncoding
  | invalidSignature
  | invalidPayload
  | recoverFailed
  | signerMismatch
  deriving DecidableEq

/-- `TicketPayload::verify`: recover the signer from the signature over the
personal-message hash of the canonical message and require it to equal the
claimed `signer`; returns the signer on success. -/
def TicketPayload.verify (C : Crypto) (p : TicketPayload) (signature : List Nat) :
    Except VerifyErr Address :=
  match C.recover (hash_message C (utf8 p.verification_message)) signature with
  | .error _ => .error .recoverFailed
  | .ok recovered_signer =>
    if recovered_signer = p.signer then .ok p.signer else .error .mismatch

/-- `TicketPayload::sign_hash`: sign the personal-message hash of the
canonical message with the wallet. -/
def TicketPayload.sign_hash (C : Crypto) (p : TicketPayload) (w : Wallet) : List Nat :=
  w.signHash (hash_message C (utf8 p.verification_message))

/-- `TicketPayload::encode`: CBOR payload bytes with the 65 signature bytes
appended. -/
def TicketPayload.encode (C : Crypto) (p : TicketPayload) (w : Wallet) : List Nat :=
  p.to_cbor ++ TicketPayload.sign_hash C p w

/-- `TicketPayload::to_ticket_base64`: URL-safe no-pad base64 of the encoded
ticket. -/
def TicketPayload.to_ticket_base64 (C : Crypto) (p : TicketPayload) (w : Wallet) : Str :=
  b64encode (TicketPayload.encode C p w)

/-- The tail of `from_ticket_base64` after the signature split: deserialize
the payload portion, then verify it against the extracted signature. -/
def decode_split (C : Crypto) (payload_bytes signature : List Nat) :
    Except TicketError (TicketPayload × List Nat) :=
  match decodePayload payload_bytes with
  | none => .error .invalidPayload
  | some payload =>
    match TicketPayload.verify C payload signature with
    | .error .recoverFailed => .error .recoverFailed
    | .error .mismatch => .error .signerMismatch
    | .ok _ => .ok (payload, signature)

/-- `from_ticket_base64` after base64 decoding: `signature_start` is
`len.saturating_sub(65)` (natural subtraction), the signature slice is
`ticket[signature_start..]`, and its `try_into` a 65-byte array fails unless
it is exactly 65 bytes long. -/
def decode_ticket_bytes (C : Crypto) (ticket : List Nat) :
    Except TicketError (TicketPayload × List Nat) :=
  if (ticket.drop (ticket.length - 65)).length = 65 then
    decode_split C (ticket.take (ticket.length - 65)) (ticket.drop (ticket.length - 65))
  else .error .invalidSignature

/-- `TicketPayload::from_ticket_base64`: base64-decode, split the signature,
deserialize the payload, verify. -/
def TicketPayload.from_ticket_base64 (C : Crypto) (ticket : Str) :
    Except TicketError (TicketPayload × List Nat) :=
  match b64decode ticket with
  | none => .error .invalidEncoding
  | some bytes => decode_ticket_bytes C bytes

/-- Claim C5: whenever the base64 decoding of the input yields fewer than 65
bytes, `from_ticket_base64` returns the invalid-signature error (total
function, no panic and no out-of-bounds access in the model); with at least
65 bytes, the last 65 bytes become the signature and everything before them
the serialized payload. -/
theorem claim_C5_short_buffer (C : Crypto) (s : Str) (b : List Nat)
    (hdec : b64decode s = some b) :
    (b.length < 65 →
      TicketPayload.from_ticket_base64 C s = .error .invalidSignature) ∧
    (65 ≤ b.length →
      TicketPayload.from_ticket_base64 C s =
        decode_split C (b.take (b.length - 65)) (b.drop (b.length - 65)) ∧
      (b.drop (b.length - 65)).length = 65 ∧
      b.take (b.length - 65) ++ b.drop (b.length - 65) = b) := by
  have hft : TicketPayload.from_ticket_base64 C s = decode_ticket_bytes C b := by
    unfold TicketPayload.from_ticket_base64
    rw [hdec]
  have hdroplen : (b.drop (b.length - 65)).length = b.length - (b.length - 65) :=
    List.length_drop _ _
  constructor
  · intro hshort
    rw [hft]
    unfold decode_ticket_bytes
    rw [if_neg (by omega)]
  · intro hlong
    refine ⟨?_, by omega, List.take_append_drop _ _⟩
    rw [hft]
    unfold decode_ticket_bytes
    rw [if_pos (by omega)]

/-- Witness for claim C5: the empty ticket string decodes to zero bytes and
is rejected as an invalid signature. -/
theorem claim_C5_short_buffer_witness :
    b64decode [] = some [] ∧
      TicketPayload.from_ticket_base64 ⟨fun m => m, fun _ _ => .error ()⟩ [] =
        .error .invalidSignature :=
  ⟨rfl, (claim_C5_short_buffer ⟨fun m => m, fun _ _ => .error ()⟩ [] [] rfl).1 (by decide)⟩

/-- Claim C10: a buffer of exactly 65 bytes leaves an empty payload portion,
whose CBOR deserialization fails, so `from_ticket_base64` returns the
invalid-payload error; hence no input whose decoded length is at most 65
bytes ever decodes successfully. -/
theorem claim_C10_exact_65 (C : Crypto) (s : Str) (b : List Nat)
    (hdec : b64decode s = some b) :
    (b.length = 65 → TicketPayload.from_ticket_base64 C s = .error .invalidPayload) ∧
    (b.length ≤ 65 → ∀ r, TicketPayload.from_ticket_base64 C s ≠ .ok r) := by
  have h5 := claim_C5_short_buffer C s b hdec
  constructor
  · intro h65
    obtain ⟨heq, -, -⟩ := h5.2 (by omega)
    rw [heq]
    have ht : b.take (b.length - 65) = b.take 0 := by rw [h65]
    rw [ht, List.take_zero]
    rfl
  · intro hle r
    by_cases hlt : b.length < 65
    · rw [h5.1 hlt]
      intro hc
      cases hc
    · have h65 : b.length = 65 := by omega
      obtain ⟨heq, -, -⟩ := h5.2 (by omega)
      rw [heq]
      have ht : b.take (b.length - 65) = b.take 0 := by rw [h65]
      rw [ht, List.take_zero]
      intro hc
      cases hc

/-- Witness for claim C10: a ticket of exactly 65 zero bytes fails with the
invalid-payload error. -/
theorem claim_C10_exact_65_witness :
    b64decode (b64encode (List.replicate 65 0)) = some (List.replicate 65 0) ∧
      TicketPayload.from_ticket_base64 ⟨fun m => m, fun _ _ => .error ()⟩
        (b64encode (List.replicate 65 0)) = .error .invalidPayload := by
  have hdec : b64decode (b64encode (List.replicate 65 0)) = some (List.replicate 65 0) := by
    decide
  exact ⟨hdec,
    (claim_C10_exact_65 ⟨fun m => m, fun _ _ => .error ()⟩ _ _ hdec).1 (by decide)⟩

/-- Claim C2: verification succeeds exactly when the address recovered from
the signature over the personal-message hash of the canonical message equals
the payload's `signer` field, returning that signer; recovery to any other
address yields the mismatch error; in particular a payload signed by one
wallet while claiming a different signer address fails with the mismatch
error. -/
theorem claim_C2_verify_signer_binding (C : Crypto) (p : TicketPayload)
    (signature : List Nat) :
    (∀ a, TicketPayload.verify C p signature = .ok a ↔
      (C.recover (hash_message C (utf8 p.verification_message)) signature = .ok p.signer ∧
        a = p.signer)) ∧
    (∀ a', C.recover (hash_message C (utf8 p.verification_message)) signature = .ok a' →
      a' ≠ p.signer → TicketPayload.verify C p signature = .error .mismatch) ∧
    (∀ w : Wallet,
      C.recover (hash_message C (utf8 p.verification_message))
        (TicketPayload.sign_hash C p w) = .ok w.address →
      p.signer ≠ w.address →
      TicketPayload.verify C p (TicketPayload.sign_hash C p w) = .error .mismatch) := by
  refine ⟨?_, ?_, ?_⟩
  · intro a
    unfold TicketPayload.verify
    cases hrec : C.recover (hash_message C (utf8 p.verification_message)) signature with
    | error e =>
      constructor
      · intro hc; cases hc
      · intro ⟨hc, _⟩; cases hc
    | ok a' =>
      dsimp only
      by_cases heq : a' = p.signer
      · rw [if_pos heq]
        constructor
        · intro hc
          cases hc
          exact ⟨by rw [heq], rfl⟩
        · intro ⟨_, ha⟩
          rw [ha]
      · rw [if_neg heq]
        constructor
        · intro hc; cases hc
        · intro ⟨hc, _⟩
          injection hc with hc
          exact absurd hc heq
  · intro a' hrec hne
    unfold TicketPayload.verify
    rw [hrec]
    dsimp only
    rw [if_neg hne]
  · intro w hrec hne
    unfold TicketPayload.verify
    rw [hrec]
    dsimp only
    rw [if_neg (fun h => hne h.symm)]

/-- A fixed 65-byte signature used by the concrete witnesses. -/
def toySig : List Nat := List.replicate 65 1

/-- A fixed 20-byte address used by the concrete witnesses. -/
def toyAddr : Address := List.replicate 20 2

/-- A concrete instantiation of the abstract crypto interface: the digest is
the message itself and recovery accepts exactly `toySig`, recovering
`toyAddr`. -/
def toyCrypto : Crypto := ⟨fun m => m, fun _ s => if s = toySig then .ok toyAddr else .error ()⟩

/-- The wallet owning `toyAddr` under `toyCrypto`. -/
def toyWallet : Wallet := ⟨fun _ => toySig, toyAddr⟩

/-- The contract address of the repository's `test_ticket`
(`0xe7f1725E7734CE288F8367e1Bb143E90bb3F0512`). -/
def testContract : Address :=
  [0xe7, 0xf1, 0x72, 0x5e, 0x77, 0x34, 0xce, 0x28, 0x8f, 0x83,
   0x67, 0xe1, 0xbb, 0x14, 0x3e, 0x90, 0xbb, 0x3f, 0x05, 0x12]

/-- A payload claiming a signer different from the wallet that signs. -/
def mismatchPayload : TicketPayload :=
  ⟨1337, testContract, List.replicate 20 3, none, none, none, none, none⟩

/-- Witness for claim C2: a payload signed by `toyWallet` but claiming a
different signer address fails verification with the mismatch error. -/
theorem claim_C2_verify_signer_binding_witness :
    TicketPayload.verify toyCrypto mismatchPayload
        (TicketPayload.sign_hash toyCrypto mismatchPayload toyWallet) = .error .mismatch :=
  (claim_C2_verify_signer_binding toyCrypto mismatchPayload
      (TicketPayload.sign_hash toyCrypto mismatchPayload toyWallet)).2.2 toyWallet
    (by decide) (by decide)

/-- Claim C1 (round trip): for a well-formed payload whose `signer` is the
signing wallet's address, and a signing capability whose 65-byte signature
recovers to that address (the spec's assumption on the external ECDSA
primitives), decoding the encoded ticket succeeds and returns exactly the
payload and the produced signature. -/
theorem claim_C1_roundtrip (C : Crypto) (p : TicketPayload) (w : Wallet)
    (hwf : wfPayload p)
    (hsigner : p.signer = w.address)
    (hlen : (TicketPayload.sign_hash C p w).length = 65)
    (hbytes : allBytes (TicketPayload.sign_hash C p w))
    (hrec : C.recover (hash_message C (utf8 p.verification_message))
      (TicketPayload.sign_hash C p w) = .ok w.address) :
    TicketPayload.from_ticket_base64 C (TicketPayload.to_ticket_base64 C p w) =
      .ok (p, TicketPayload.sign_hash C p w) := by
  have hab : allBytes (TicketPayload.encode C p w) :=
    allBytes_append (allBytes_to_cbor p hwf) hbytes
  unfold TicketPayload.from_ticket_base64 TicketPayload.to_ticket_base64
  rw [b64decode_b64encode _ hab]
  unfold TicketPayload.encode decode_ticket_bytes
  have hL : (p.to_cbor ++ TicketPayload.sign_hash C p w).length - 65 = p.to_cbor.length := by
    rw [List.length_append, hlen]
    omega
  dsimp only
  rw [hL, List.drop_left, List.take_left, hlen, if_pos rfl]
  unfold decode_split
  rw [decodePayload_to_cbor p hwf]
  unfold TicketPayload.verify
  dsimp only
  rw [hrec]
  dsimp only
  rw [if_pos hsigner.symm]

/-- The concrete-scenario payload of the repository's `test_ticket`, signed
under the toy crypto instantiation by `toyWallet`. -/
def testPayload : TicketPayload := ⟨1337, testContract, toyAddr, none, none, none, none, none⟩

/-- Witness for claim C1: the concrete test payload round-trips through
`to_ticket_base64` and `from_ticket_base64` under the toy crypto. -/
theorem claim_C1_roundtrip_witness :
    wfPayload testPayload ∧ testPayload.signer = toyWallet.address ∧
      (TicketPayload.sign_hash toyCrypto testPayload toyWallet).length = 65 ∧
      TicketPayload.from_ticket_base64 toyCrypto
          (TicketPayload.to_ticket_base64 toyCrypto testPayload toyWallet) =
        .ok (testPayload, TicketPayload.sign_hash toyCrypto testPayload toyWallet) :=
  ⟨by decide, rfl, by decide,
    claim_C1_roundtrip toyCrypto testPayload toyWallet (by decide) rfl (by decide) (by decide)
      (by decide)⟩

/-! Injectivity analysis of the canonical message (claim C4).  A left
inverse of `verification_message` is built for payloads whose string-valued
fields contain no newline; the spec itself notes that a value containing a
newline corrupts the line structure, and indeed it breaks injectivity (see
the counterexample). -/

/-- A string with no embedded newline. -/
def noNl (s : Str) : Prop := ∀ c ∈ s, c ≠ '\n'

instance (s : Str) : Decidable (noNl s) := by unfold noNl; infer_instance

/-- An optional string field with no embedded newline. -/
def noNlOpt : Option Str → Prop
  | none => True
  | some s => noNl s

instance (o : Option Str) : Decidable (noNlOpt o) := by
  cases o <;> unfold noNlOpt <;> infer_instance

/-- No string-valued field of the payload contains a newline (the upstream
obligation the spec places on callers). -/
def wfMsgStrings (p : TicketPayload) : Prop :=
  noNlOpt p.name ∧ noNlOpt p.allowed_subgraphs ∧ noNlOpt p.allowed_deployments ∧
    noNlOpt p.allowed_domains

instance (p : TicketPayload) : Decidable (wfMsgStrings p) := by
  unfold wfMsgStrings; infer_instance

/-- Split the first line (up to the first newline) off a string. -/
def takeLine : Str → Option (Str × Str)
  | [] => none
  | c :: cs =>
    if c = '\n' then some ([], cs)
    else (takeLine cs).map (fun lr => (c :: lr.1, lr.2))

/-- Remove an expected leading segment, or fail. -/
def stripLead : Str → Str → Option Str
  | [], s => some s
  | _ :: _, [] => none
  | c :: p, d :: s => if c = d then stripLead p s else none

/-- Two strings disagree at some position within their common length. -/
def clash : Str → Str → Bool
  | [], _ => false
  | _ :: _, [] => false
  | c :: p, d :: q => (c != d) || clash p q

theorem colon_space_noNl : noNl ": ".toList := by decide

theorem takeLine_body : ∀ (body : Str), noNl body → ∀ rest,
    takeLine (body ++ '\n' :: rest) = some (body, rest)
  | [], _, rest => by simp [takeLine]
  | c :: cs, h, rest => by
    have hc : c ≠ '\n' := h c (by simp)
    have ih := takeLine_body cs (fun d hd => h d (by simp [hd])) rest
    show takeLine (c :: (cs ++ '\n' :: rest)) = some (c :: cs, rest)
    simp only [takeLine, if_neg hc]
    rw [ih]
    rfl

theorem stripLead_self : ∀ (p s : Str), stripLead p (p ++ s) = some s
  | [], s => rfl
  | c :: ps, s => by
    show stripLead (c :: ps) (c :: (ps ++ s)) = some s
    simp only [stripLead]
    rw [if_pos trivial]
    exact stripLead_self ps s

theorem clash_stripLead : ∀ (p q : Str), clash p q = true → ∀ s, stripLead p (q ++ s) = none
  | [], q, h, s => by simp [clash] at h
  | _ :: _, [], h, s => by simp [clash] at h
  | c :: p, d :: q, h, s => by
    simp only [clash, Bool.or_eq_true, bne_iff_ne] at h
    show stripLead (c :: p) (d :: (q ++ s)) = none
    simp only [stripLead]
    by_cases hcd : c = d
    · rw [if_pos hcd]
      rcases h with h | h
      · exact absurd hcd h
      · exact clash_stripLead p q h s
    · rw [if_neg hcd]

/-- Parse one line `"<nm>: <value>\n"` off the front. -/
def parseLine (nm : String) (s : Str) : Option (Str × Str) :=
  (takeLine s).bind fun lr =>
    (stripLead (nm.toList ++ ": ".toList) lr.1).map (fun v => (v, lr.2))

/-- Parse an optional line: on mismatch the input is left untouched. -/
def parseOpt (nm : String) (s : Str) : Option Str × Str :=
  match parseLine nm s with
  | some vr => (some vr.1, vr.2)
  | none => (none, s)

theorem body_noNl (nm : String) (v : Str) (hk : noNl nm.toList) (hv : noNl v) :
    noNl ((nm.toList ++ ": ".toList) ++ v) := by
  intro c hc
  rw [List.mem_append, List.mem_append] at hc
  rcases hc with (hc | hc) | hc
  · exact hk c hc
  · exact colon_space_noNl c hc
  · exact hv c hc

theorem lineFor_split (nm : String) (v : Str) (rest : Str) :
    lineFor nm v ++ rest = ((nm.toList ++ ": ".toList) ++ v) ++ ('\n' :: rest) := by
  unfold lineFor
  rw [List.append_assoc ((nm.toList ++ ": ".toList) ++ v) ['\n'] rest]
  rfl

theorem parseLine_hit (nm : String) (v : Str) (rest : Str)
    (hk : noNl nm.toList) (hv : noNl v) :
    parseLine nm (lineFor nm v ++ rest) = some (v, rest) := by
  rw [lineFor_split]
  unfold parseLine
  rw [takeLine_body _ (body_noNl nm v hk hv) rest, Option.some_bind]
  dsimp only
  rw [stripLead_self, Option.map_some']

theorem parseOpt_hit (nm : String) (v : Str) (rest : Str)
    (hk : noNl nm.toList) (hv : noNl v) :
    parseOpt nm (lineFor nm v ++ rest) = (some v, rest) := by
  unfold parseOpt
  rw [parseLine_hit nm v rest hk hv]

theorem parseLine_miss (nm' nm : String) (v : Str) (rest : Str)
    (hcl : clash (nm'.toList ++ ": ".toList) (nm.toList ++ ": ".toList) = true)
    (hk : noNl nm.toList) (hv : noNl v) :
    parseLine nm' (lineFor nm v ++ rest) = none := by
  rw [lineFor_split]
  unfold parseLine
  rw [takeLine_body _ (body_noNl nm v hk hv) rest, Option.some_bind]
  dsimp only
  rw [clash_stripLead _ _ hcl, Option.map_none']

theorem parseOpt_miss (nm' nm : String) (v : Str) (rest : Str)
    (hcl : clash (nm'.toList ++ ": ".toList) (nm.toList ++ ": ".toList) = true)
    (hk : noNl nm.toList) (hv : noNl v) :
    parseOpt nm' (lineFor nm v ++ rest) = (none, lineFor nm v ++ rest) := by
  unfold parseOpt
  rw [parseLine_miss nm' nm v rest hcl hk hv]

theorem parseOpt_nil (nm : String) : parseOpt nm [] = (none, []) := rfl

/-- The value view a canonical message determines: the rendered value string
of each present field. -/
structure VMView where
  allowed_deployments : Option Str
  allowed_domains : Option Str
  allowed_subgraphs : Option Str
  chain_id : Str
  contract : Str
  name : Option Str
  signer : Str
  user : Option Str
  deriving DecidableEq

/-- The view of a payload's rendered field values. -/
def viewOf (p : TicketPayload) : VMView :=
  ⟨p.allowed_deployments, p.allowed_domains, p.allowed_subgraphs, decRep p.chain_id,
    addressHex p.contract, p.name, addressHex p.signer, p.user.map addressHex⟩

/-- Line contributed by an optional string field. -/
def optLineS (nm : String) (o : Option Str) : Str :=
  match o with | some v => lineFor nm v | none => []

/-- Line contributed by the optional `user` field. -/
def optLineU (o : Option Address) : Str :=
  match o with | some u => lineFor "user" (addressHex u) | none => []

/-- The canonical message from the `signer` line on. -/
def vmT5 (p : TicketPayload) : Str :=
  lineFor "signer" (addressHex p.signer) ++ optLineU p.user

/-- The canonical message from the `chain_id` line on. -/
def vmT4 (p : TicketPayload) : Str :=
  lineFor "chain_id" (decRep p.chain_id) ++
    (lineFor "contract" (addressHex p.contract) ++ (optLineS "name" p.name ++ vmT5 p))

/-- The canonical message from the `allowed_subgraphs` line on. -/
def vmT3 (p : TicketPayload) : Str := optLineS "allowed_subgraphs" p.allowed_subgraphs ++ vmT4 p

/-- The canonical message from the `allowed_domains` line on. -/
def vmT2 (p : TicketPayload) : Str := optLineS "allowed_domains" p.allowed_domains ++ vmT3 p

/-- The canonical message re-associated into its line suffixes. -/
theorem vm_eq_T1 (p : TicketPayload) :
    p.verification_message = optLineS "allowed_deployments" p.allowed_deployments ++ vmT2 p := by
  cases hu : p.user <;> cases hn : p.name <;> cases ha : p.allowed_subgraphs <;>
    cases hd : p.allowed_deployments <;> cases hm : p.allowed_domains <;>
    simp [TicketPayload.verification_message, vmT2, vmT3, vmT4, vmT5, optLineS, optLineU,
      hu, hn, ha, hd, hm, List.append_assoc]

/-- Stage 5 of the message parser: `signer` line then optional `user` line,
then end of input. -/
def parseVM5 (adp adm asg : Option Str) (cv ctv : Str) (nv : Option Str) (s : Str) :
    Option VMView :=
  match parseLine "signer" s with
  | none => none
  | some sgr =>
    match parseOpt "user" sgr.2 with
    | (uv, s8) => if s8 = [] then some ⟨adp, adm, asg, cv, ctv, nv, sgr.1, uv⟩ else none

/-- Stage 4: `chain_id` line, `contract` line, optional `name` line. -/
def parseVM4 (adp adm asg : Option Str) (s : Str) : Option VMView :=
  match parseLine "chain_id" s with
  | none => none
  | some cvr =>
    match parseLine "contract" cvr.2 with
    | none => none
    | some ctr =>
      match parseOpt "name" ctr.2 with
      | (nv, s6) => parseVM5 adp adm asg cvr.1 ctr.1 nv s6

/-- Stage 3: optional `allowed_subgraphs` line. -/
def parseVM3 (adp adm : Option Str) (s : Str) : Option VMView :=
  match parseOpt "allowed_subgraphs" s with
  | (asg, s3) => parseVM4 adp adm asg s3

/-- Stage 2: optional `allowed_domains` line. -/
def parseVM2 (adp : Option Str) (s : Str) : Option VMView :=
  match parseOpt "allowed_domains" s with
  | (adm, s2) => parseVM3 adp adm s2

/-- The full message parser, a left inverse of `verification_message` on
newline-free payloads. -/
def parseVM (s : Str) : Option VMView :=
  match parseOpt "allowed_deployments" s with
  | (adp, s1) => parseVM2 adp s1

theorem noNl_addressHex (a : Address) : noNl (addressHex a) := fun c hc =>
  addressHex_ne_nl a c hc

theorem noNl_decRep (n : Nat) : noNl (decRep n) := fun c hc => decRep_ne_nl n c hc

theorem parseOpt_skip_T4 (nm' : String) (p : TicketPayload)
    (hcl : clash (nm'.toList ++ ": ".toList) ("chain_id".toList ++ ": ".toList) = true) :
    parseOpt nm' (vmT4 p) = (none, vmT4 p) := by
  unfold vmT4
  exact parseOpt_miss nm' "chain_id" _ _ hcl (by decide) (noNl_decRep _)

theorem parseOpt_skip_T3 (nm' : String) (p : TicketPayload)
    (ha : noNlOpt p.allowed_subgraphs)
    (hcl1 : clash (nm'.toList ++ ": ".toList) ("allowed_subgraphs".toList ++ ": ".toList) = true)
    (hcl2 : clash (nm'.toList ++ ": ".toList) ("chain_id".toList ++ ": ".toList) = true) :
    parseOpt nm' (vmT3 p) = (none, vmT3 p) := by
  unfold vmT3 optLineS
  cases has : p.allowed_subgraphs with
  | some v =>
    rw [has] at ha
    exact parseOpt_miss nm' "allowed_subgraphs" _ _ hcl1 (by decide) ha
  | none =>
    dsimp only
    rw [List.nil_append]
    exact parseOpt_skip_T4 nm' p hcl2

theorem parseOpt_skip_T2 (nm' : String) (p : TicketPayload)
    (hm : noNlOpt p.allowed_domains) (ha : noNlOpt p.allowed_subgraphs)
    (hcl1 : clash (nm'.toList ++ ": ".toList) ("allowed_domains".toList ++ ": ".toList) = true)
    (hcl2 : clash (nm'.toList ++ ": ".toList) ("allowed_subgraphs".toList ++ ": ".toList) = true)
    (hcl3 : clash (nm'.toList ++ ": ".toList) ("chain_id".toList ++ ": ".toList) = true) :
    parseOpt nm' (vmT2 p) = (none, vmT2 p) := by
  unfold vmT2 optLineS
  cases hmm : p.allowed_domains with
  | some v =>
    rw [hmm] at hm
    exact parseOpt_miss nm' "allowed_domains" _ _ hcl1 (by decide) hm
  | none =>
    dsimp only
    rw [List.nil_append]
    exact parseOpt_skip_T3 nm' p ha hcl2 hcl3

theorem parseVM5_spec (p : TicketPayload) (adp adm asg nv : Option Str) (cv ctv : Str) :
    parseVM5 adp adm asg cv ctv nv (vmT5 p) =
      some ⟨adp, adm, asg, cv, ctv, nv, addressHex p.signer, p.user.map addressHex⟩ := by
  unfold parseVM5 vmT5
  rw [parseLine_hit "signer" _ _ (by decide) (noNl_addressHex _)]
  dsimp only
  unfold optLineU
  cases hu : p.user with
  | some u =>
    dsimp only
    rw [show lineFor "user" (addressHex u) = lineFor "user" (addressHex u) ++ [] from
      (List.append_nil _).symm]
    rw [parseOpt_hit "user" _ _ (by decide) (noNl_addressHex _)]
    rfl
  | none =>
    dsimp only
    rw [parseOpt_nil]
    rfl

theorem parseVM4_spec (p : TicketPayload) (adp adm asg : Option Str) (hn : noNlOpt p.name) :
    parseVM4 adp adm asg (vmT4 p) =
      some ⟨adp, adm, asg, decRep p.chain_id, addressHex p.contract, p.name,
        addressHex p.signer, p.user.map addressHex⟩ := by
  unfold parseVM4 vmT4
  rw [parseLine_hit "chain_id" _ _ (by decide) (noNl_decRep _)]
  dsimp only
  rw [parseLine_hit "contract" _ _ (by decide) (noNl_addressHex _)]
  dsimp only
  unfold optLineS
  cases hnm : p.name with
  | some v =>
    rw [hnm] at hn
    dsimp only
    rw [parseOpt_hit "name" _ _ (by decide) hn]
    dsimp only
    rw [parseVM5_spec]
  | none =>
    dsimp only
    rw [List.nil_append]
    have hskip : parseOpt "name" (vmT5 p) = (none, vmT5 p) := by
      unfold vmT5
      exact parseOpt_miss "name" "signer" _ _ (by decide) (by decide) (noNl_addressHex _)
    rw [hskip]
    dsimp only
    rw [parseVM5_spec]

theorem parseVM3_spec (p : TicketPayload) (adp adm : Option Str)
    (ha : noNlOpt p.allowed_subgraphs) (hn : noNlOpt p.name) :
    parseVM3 adp adm (vmT3 p) =
      some ⟨adp, adm, p.allowed_subgraphs, decRep p.chain_id, addressHex p.contract, p.name,
        addressHex p.signer, p.user.map addressHex⟩ := by
  unfold parseVM3 vmT3 optLineS
  cases has : p.allowed_subgraphs with
  | some v =>
    rw [has] at ha
    dsimp only
    rw [parseOpt_hit "allowed_subgraphs" _ _ (by decide) ha]
    dsimp only
    rw [parseVM4_spec p adp adm _ hn]
  | none =>
    dsimp only
    rw [List.nil_append, parseOpt_skip_T4 "allowed_subgraphs" p (by decide)]
    dsimp only
    rw [parseVM4_spec p adp adm _ hn]

theorem parseVM2_spec (p : TicketPayload) (adp : Option Str)
    (hm : noNlOpt p.allowed_domains) (ha : noNlOpt p.allowed_subgraphs)
    (hn : noNlOpt p.name) :
    parseVM2 adp (vmT2 p) =
      some ⟨adp, p.allowed_domains, p.allowed_subgraphs, decRep p.chain_id,
        addressHex p.contract, p.name, addressHex p.signer, p.user.map addressHex⟩ := by
  unfold parseVM2 vmT2 optLineS
  cases hmm : p.allowed_domains with
  | some v =>
    rw [hmm] at hm
    dsimp only
    rw [parseOpt_hit "allowed_domains" _ _ (by decide) hm]
    dsimp only
    rw [parseVM3_spec p adp _ ha hn]
  | none =>
    dsimp only
    rw [List.nil_append, parseOpt_skip_T3 "allowed_domains" p ha (by decide) (by decide)]
    dsimp only
    rw [parseVM3_spec p adp _ ha hn]

/-- The parser is a left inverse of `verification_message` on payloads whose
string fields contain no newline. -/
theorem parseVM_vm (p : TicketPayload) (h : wfMsgStrings p) :
    parseVM p.verification_message = some (viewOf p) := by
  obtain ⟨hn, ha, hd, hm⟩ := h
  rw [vm_eq_T1]
  unfold parseVM optLineS
  cases hdp : p.allowed_deployments with
  | some v =>
    rw [hdp] at hd
    dsimp only
    rw [parseOpt_hit "allowed_deployments" _ _ (by decide) hd]
    dsimp only
    rw [parseVM2_spec p _ hm ha hn]
    unfold viewOf
    rw [hdp]
  | none =>
    dsimp only
    rw [List.nil_append,
      parseOpt_skip_T2 "allowed_deployments" p hm ha (by decide) (by decide) (by decide)]
    dsimp only
    rw [parseVM2_spec p _ hm ha hn]
    unfold viewOf
    rw [hdp]

/-- Byte-validity of an optional address. -/
def allBytesOpt : Option (List Nat) → Prop
  | none => True
  | some b => allBytes b

instance (o : Option (List Nat)) : Decidable (allBytesOpt o) := by
  cases o <;> unfold allBytesOpt <;> infer_instance

/-- The address fields hold genuine bytes (guaranteed by `[u8; 20]` in the
Rust type). -/
def wfAddrBytesP (p : TicketPayload) : Prop :=
  allBytes p.contract ∧ allBytes p.signer ∧ allBytesOpt p.user

instance (p : TicketPayload) : Decidable (wfAddrBytesP p) := by
  unfold wfAddrBytesP; infer_instance

/-- Counterexample to claim C4 as stated: a newline embedded in
`allowed_deployments` makes two different payloads (one with
`allowed_domains` absent, one with it present) produce byte-identical
canonical messages, so the message is not injective on all payloads. -/
theorem claim_C4_counterexample :
    TicketPayload.verification_message
        ⟨0, List.replicate 20 0, List.replicate 20 0, none, none, none,
          some "x\nallowed_domains: y".toList, none⟩ =
      TicketPayload.verification_message
        ⟨0, List.replicate 20 0, List.replicate 20 0, none, none, none,
          some "x".toList, some "y".toList⟩ ∧
    (⟨0, List.replicate 20 0, List.replicate 20 0, none, none, none,
        some "x\nallowed_domains: y".toList, none⟩ : TicketPayload) ≠
      ⟨0, List.replicate 20 0, List.replicate 20 0, none, none, none,
        some "x".toList, some "y".toList⟩ := by
  constructor
  · decide
  · decide

/-- Claim C4 as amended: the canonical message is injective on payloads whose
string-valued optional fields contain no newline character (the upstream
restriction the spec itself imposes) and whose address fields are byte
arrays: equal field values give byte-identical messages, and two such
payloads with identical messages are equal — so any difference in any field,
presence or absence of an optional field included, changes the message. -/
theorem claim_C4_amended_injective (p q : TicketPayload)
    (hp : wfMsgStrings p) (hq : wfMsgStrings q)
    (hpb : wfAddrBytesP p) (hqb : wfAddrBytesP q)
    (hmsg : p.verification_message = q.verification_message) : p = q := by
  have h1 := parseVM_vm p hp
  have h2 := parseVM_vm q hq
  rw [hmsg] at h1
  rw [h1] at h2
  injection h2 with hview
  obtain ⟨hpc, hps, hpu⟩ := hpb
  obtain ⟨hqc, hqs, hqu⟩ := hqb
  cases p with
  | mk pc pct psg pu pn pa pd pm =>
    cases q with
    | mk qc qct qsg qu qn qa qd qm =>
      unfold viewOf at hview
      dsimp only at hview
      injection hview with h1 h2 h3 h4 h5 h6 h7 h8
      dsimp only at hpc hps hpu hqc hqs hqu
      have ec : pc = qc := decRep_inj h4
      have ect : pct = qct := addressHex_inj hpc hqc h5
      have esg : psg = qsg := addressHex_inj hps hqs h7
      have eu : pu = qu := by
        cases pu with
        | none =>
          cases qu with
          | none => rfl
          | some u2 => simp only [Option.map_none', Option.map_some'] at h8; cases h8
        | some u1 =>
          cases qu with
          | none => simp only [Option.map_none', Option.map_some'] at h8; cases h8
          | some u2 =>
            simp only [Option.map_some', Option.some.injEq] at h8
            rw [addressHex_inj hpu hqu h8]
      rw [ec, ect, esg, eu, h6, h3, h1, h2]

/-- Witness for the amended claim C4 at a concrete payload with every
optional field present and newline-free. -/
theorem claim_C4_amended_injective_witness :
    (⟨5, List.replicate 20 1, List.replicate 20 2, some (List.replicate 20 3),
        some "n".toList, some "s,t".toList, some "d".toList, some "m".toList⟩ : TicketPayload) =
      ⟨5, List.replicate 20 1, List.replicate 20 2, some (List.replicate 20 3),
        some "n".toList, some "s,t".toList, some "d".toList, some "m".toList⟩ :=
  claim_C4_amended_injective _ _ (by decide) (by decide) (by decide) (by decide) rfl
